import Mathlib

/-!
Verification of sgblkdiscard: size parsing, discard planning and unmap
splitting.

A shallow embedding of `src/utils.c` and of the planning part of `main` in
`src/sgblkdiscard.c`.

Conventions of the embedding:

* `uint64_t` / `uint32_t` values are natural numbers; every operation of the
  source that can wrap is written with an explicit `% 2 ^ 64`.
* A C string is the list of its characters before the terminating NUL.  A
  pointer into the string is the list of characters from that position on, so
  the empty list is a pointer to the terminator.
* Reading a byte that lies after the terminator has no defined result in C;
  the embedding makes it the separate outcome `parse_outcome.out_of_bounds`.
* A division or a modulus by zero traps; the embedding makes it `none`
  (`sg_unmap`) or `plan_outcome.divide_by_zero` (`main`).
-/

namespace Sgblkdiscard

/-! ## Constants -/

/-- The constant `UINT64_MAX` of `stdint.h`. -/
def UINT64_MAX : Nat := 2 ^ 64 - 1

/-- The errno value `EINVAL`. -/
def EINVAL : Int := 22

/-- The errno value `ERANGE`. -/
def ERANGE : Int := 34

/-! ## The C library functions used by `parse_size` -/

/-- The `isspace` of `ctype.h` in the C locale: space, `\t`, `\n`, `\v`, `\f`, `\r`. -/
def isspace (c : Char) : Bool :=
  c.toNat == 32 || (9 ≤ c.toNat && c.toNat ≤ 13)

/-- The `isdigit` of `ctype.h`. -/
def isdigit (c : Char) : Bool :=
  48 ≤ c.toNat && c.toNat ≤ 57

/-- The value of a character as a digit in `strtoull`: `0-9`, then letters of
either case from 10 on; 36 for a character that is a digit in no base. -/
def digit_value (c : Char) : Nat :=
  if 48 ≤ c.toNat ∧ c.toNat ≤ 57 then c.toNat - 48
  else if 97 ≤ c.toNat ∧ c.toNat ≤ 122 then c.toNat - 97 + 10
  else if 65 ≤ c.toNat ∧ c.toNat ≤ 90 then c.toNat - 65 + 10
  else 36

/-- What a call `strtoull(nptr, &end, 0)` leaves behind: the returned value,
the string `end` points to, whether `end != nptr`, and `errno`. -/
structure strtoull_result where
  value : Nat
  endp : List Char
  moved : Bool
  errno : Int
  deriving DecidableEq

/-- The number denoted by a digit sequence in a base, most significant first. -/
def digits_value (base : Nat) (ds : List Char) : Nat :=
  ds.foldl (fun acc c => acc * base + digit_value c) 0

/-- Whether a string starts with `0x` or `0X` and a hexadecimal digit, the
prefix that makes `strtoull` with base 0 read base 16. -/
def hex_lead : List Char → Bool
  | c0 :: c1 :: c2 :: _ => c0 == '0' && (c1 == 'x' || c1 == 'X') && decide (digit_value c2 < 16)
  | _ => false

/-- The `strtoull` of the C library, called with base 0: leading white space
is skipped, one sign is accepted, a `0x`/`0X` followed by a hexadecimal digit
selects base 16, another leading `0` base 8, anything else base 10; then the
longest run of digits of that base is converted.  Without any digit the
result is 0 and `end` is `nptr`.  A value above `UINT64_MAX` gives
`UINT64_MAX` with `errno = ERANGE`; a minus sign negates modulo `2 ^ 64`. -/
def strtoull (nptr : List Char) : strtoull_result :=
  let s1 := nptr.dropWhile isspace
  let neg : Bool := s1.head? == some '-'
  let s2 := if s1.head? == some '-' || s1.head? == some '+' then s1.tail else s1
  let base : Nat := if hex_lead s2 then 16 else if s2.head? == some '0' then 8 else 10
  let s3 := if hex_lead s2 then s2.drop 2 else s2
  let ds := s3.takeWhile (fun c => decide (digit_value c < base))
  let rest := s3.dropWhile (fun c => decide (digit_value c < base))
  if ds.isEmpty then
    { value := 0, endp := nptr, moved := false, errno := 0 }
  else if UINT64_MAX < digits_value base ds then
    { value := UINT64_MAX, endp := rest, moved := true, errno := ERANGE }
  else
    { value := if neg then (2 ^ 64 - digits_value base ds) % 2 ^ 64 else digits_value base ds,
      endp := rest, moved := true, errno := 0 }

/-! ## `do_scale_by_power` and `parse_size` (src/utils.c) -/

/-- The function `do_scale_by_power`: multiplies `x` by `base`, `power`
times, stopping with `-ERANGE` before a multiplication that would exceed
`UINT64_MAX`.  Returns the status and the value left in `*x`. -/
def do_scale_by_power (x : Nat) (base : Nat) : Nat → Int × Nat
  | 0 => (0, x)
  | power + 1 =>
    if UINT64_MAX / base < x then (-ERANGE, x)
    else do_scale_by_power (x * base) base power

/-- What a call of `parse_size` does: it returns `rc` having stored `result`
in `*result`; or it reads a byte after the string's terminator; or it never
returns. -/
inductive parse_outcome where
  | returned (rc : Int) (result : Nat)
  | out_of_bounds
  | hangs
  deriving DecidableEq

/-- The position of `c` in the suffix tables `"KMGTPEZY"` / `"kmgtpezy"`,
counted from 1, as the two `strchr` calls of `parse_size` find it; `none` when
it is in neither table. -/
def suffix_power (c : Char) : Option Nat :=
  match "KMGTPEZY".toList.indexOf? c with
  | some i => some (i + 1)
  | none =>
    match "kmgtpezy".toList.indexOf? c with
    | some i => some (i + 1)
    | none => none

/-- The loop `while (frac_div < frac)` of `parse_size`; `frac_div` grows by a
factor 10 at most 19 times and `frac` shrinks at most once, so 64 rounds of
fuel are never used up.  Returns `(frac_div, frac)`. -/
def frac_reduce : Nat → Nat → Nat → Nat × Nat
  | 0, frac_div, frac => (frac_div, frac)
  | fuel + 1, frac_div, frac =>
    if frac_div < frac then
      if frac_div ≤ UINT64_MAX / 10 then frac_reduce fuel (frac_div * 10) frac
      else frac_reduce fuel frac_div (frac / 10)
    else (frac_div, frac)

/-- The loop `for (i = 0; i < frac_zeros; i++)` of `parse_size`.  Returns
`(frac_div, frac)`. -/
def frac_shift : Nat → Nat → Nat → Nat × Nat
  | 0, frac_div, frac => (frac_div, frac)
  | zeros + 1, frac_div, frac =>
    if frac_div ≤ UINT64_MAX / 10 then frac_shift zeros (frac_div * 10) frac
    else frac_shift zeros frac_div (frac / 10)

/-- The `do ... while (frac)` loop of `parse_size`, which adds to `x` what each
digit of `frac` stands for, last digit first.  `frac` loses a digit per round,
so 20 rounds of fuel suffice for a 64-bit `frac`; `frac_poz` is then a power
of ten below `2 ^ 64` whenever it divides.  Returns `x`. -/
def frac_accumulate (frac_base frac_div : Nat) : Nat → Nat → Nat → Nat → Nat
  | 0, _, _, x => x
  | fuel + 1, frac, frac_poz, x =>
    let seg := frac % 10
    let seg_div := frac_div / frac_poz
    let frac1 := frac / 10
    let frac_poz1 := (frac_poz * 10) % 2 ^ 64
    let x1 := if seg ≠ 0 ∧ seg_div / seg ≠ 0 then (x + frac_base / (seg_div / seg)) % 2 ^ 64 else x
    if frac1 ≠ 0 then frac_accumulate frac_base frac_div fuel frac1 frac_poz1 x1 else x1

/-- The tail of `parse_size` from `sp = strchr(suf, *p)` to the return: looks
the suffix letter `c` up, scales `x`, and adds the fractional part. -/
def parse_size_scale (c : Char) (base x frac frac_zeros : Nat) : parse_outcome :=
  match suffix_power c with
  | none => .returned (-EINVAL) 0
  | some pwr =>
    let (rc, x1) := do_scale_by_power x base pwr
    if frac ≠ 0 ∧ pwr ≠ 0 then
      let frac_base := (do_scale_by_power 1 base pwr).2
      let (frac_div1, frac1) := frac_reduce 64 10 frac
      let (frac_div2, frac2) := frac_shift frac_zeros frac_div1 frac1
      .returned rc (frac_accumulate frac_base frac_div2 20 frac2 1 x1)
    else .returned rc x1

/-- The part of `parse_size` from the label `check_suffix` on.  `p` is the
string at the pointer `p`; `decimal_point` is `localeconv()->decimal_point`
(`none` when `localeconv` gives no value).  Every return to the label has
moved `p` forward by the length of the decimal point, so `fuel` above the
length of `p` is used up only when the decimal point is the empty string, and
then the C loop does not end either. -/
def check_suffix (decimal_point : Option (List Char)) :
    Nat → List Char → Nat → Nat → Nat → parse_outcome
  | 0, _, _, _, _ => .hangs
  | _ + 1, [], _, _, _ => .out_of_bounds
  | fuel + 1, c0 :: t, x, frac, frac_zeros =>
    if t.head? == some 'i' && (t.tail.head? == some 'B' || t.tail.head? == some 'b')
        && t.tail.tail.isEmpty then
      parse_size_scale c0 1024 x frac frac_zeros
    else if (t.head? == some 'B' || t.head? == some 'b') && t.tail.isEmpty then
      parse_size_scale c0 1000 x frac frac_zeros
    else if !t.isEmpty then
      match decimal_point with
      | none => .returned (-EINVAL) 0
      | some dp =>
        if frac == 0 && dp.isPrefixOf (c0 :: t) then
          let fstr0 := (c0 :: t).drop dp.length
          let zeros := (fstr0.takeWhile (fun c => c == '0')).length
          let fstr := fstr0.dropWhile (fun c => c == '0')
          if (fstr.head?.map isdigit).getD false then
            let r := strtoull fstr
            if !r.moved || (r.errno != 0 && (r.value == UINT64_MAX || r.value == 0)) then
              .returned (if r.errno != 0 then -r.errno else -EINVAL) 0
            else if r.value != 0 && r.endp.isEmpty then
              .returned (-EINVAL) 0
            else check_suffix decimal_point fuel r.endp x r.value (frac_zeros + zeros)
          else check_suffix decimal_point fuel fstr x frac (frac_zeros + zeros)
        else .returned (-EINVAL) 0
    else parse_size_scale c0 1024 x frac frac_zeros

/-- The function `parse_size` of `src/utils.c`, on a non-null `str`, with
`power_index` null as in its only caller `strtosize_or_err`. -/
def parse_size (decimal_point : Option (List Char)) (str : List Char) : parse_outcome :=
  if str.isEmpty then .returned (-EINVAL) 0
  else if (str.dropWhile isspace).head? == some '-' then .returned (-EINVAL) 0
  else
    let r := strtoull str
    if !r.moved || (r.errno != 0 && (r.value == UINT64_MAX || r.value == 0)) then
      .returned (if r.errno != 0 then -r.errno else -EINVAL) 0
    else if r.endp.isEmpty then .returned 0 r.value
    else check_suffix decimal_point (r.endp.length + 1) r.endp r.value 0 0

/-- The decimal point of the C locale. -/
def c_locale : Option (List Char) := some ['.']

/-! ## Big-endian byte codecs (src/utils.c) -/

/-- Stores `bytes` into `buf` from index `pos` on, as the stores through
`(uint8_t *)p + pos` do. -/
def store_bytes (buf : List Nat) (pos : Nat) (bytes : List Nat) : List Nat :=
  buf.take pos ++ bytes ++ buf.drop (pos + bytes.length)

/-- The byte `((const uint8_t *)p)[i]`. -/
def byte_at (p : List Nat) (i : Nat) : Nat := p.getD i 0 % 256

/-- The function `u16_to_big_endian_bytes`: the two bytes stored at `p`. -/
def u16_to_big_endian_bytes (val : Nat) : List Nat :=
  let val := val % 2 ^ 16
  [(val >>> 8) % 256, val % 256]

/-- The function `u32_to_big_endian_bytes`: the four bytes stored at `p`. -/
def u32_to_big_endian_bytes (val : Nat) : List Nat :=
  let val := val % 2 ^ 32
  u16_to_big_endian_bytes (val >>> 16) ++ u16_to_big_endian_bytes val

/-- The function `u64_to_big_endian_bytes`: the eight bytes stored at `p`. -/
def u64_to_big_endian_bytes (val : Nat) : List Nat :=
  let val := val % 2 ^ 64
  u32_to_big_endian_bytes (val >>> 32) ++ u32_to_big_endian_bytes val

/-- The function `u16_from_big_endian_bytes`. -/
def u16_from_big_endian_bytes (p : List Nat) : Nat :=
  (byte_at p 0 <<< 8 ||| byte_at p 1) % 2 ^ 16

/-- The function `u32_from_big_endian_bytes`. -/
def u32_from_big_endian_bytes (p : List Nat) : Nat :=
  ((u16_from_big_endian_bytes p <<< 16) % 2 ^ 32 ||| u16_from_big_endian_bytes (p.drop 2)) % 2 ^ 32

/-- The function `u64_from_big_endian_bytes`. -/
def u64_from_big_endian_bytes (p : List Nat) : Nat :=
  ((u32_from_big_endian_bytes p <<< 32) % 2 ^ 64 ||| u32_from_big_endian_bytes (p.drop 4)) % 2 ^ 64

/-! ## The device and the unmap command (src/utils.h, src/utils.c) -/

/-- The type `device_info_t` of `src/utils.h`. -/
structure device_info where
  last_block_address : Nat
  sector_size : Nat
  device_size : Nat
  maximum_transfer_length : Nat
  optimal_transfer_length : Nat
  maximum_unmap_lba_count : Nat
  maximum_unmap_block_descriptor_count : Nat
  optimal_unmap_granularity : Nat
  support_unmap : Bool
  deriving DecidableEq

/-- The fields of `sg_io_hdr_t` that the program sets; `cmdp` and `dxferp`
hold the bytes of the buffers they point to. -/
structure sg_io_hdr where
  interface_id : Nat
  dxfer_direction : Int
  cmd_len : Nat
  mx_sb_len : Nat
  iovec_count : Nat
  dxfer_len : Nat
  dxferp : List Nat
  cmdp : List Nat
  timeout : Nat
  deriving DecidableEq

/-- The constant `SG_DXFER_TO_DEV` of `scsi/sg.h`. -/
def SG_DXFER_TO_DEV : Int := -2

/-- The constant `SG_DXFER_FROM_DEV` of `scsi/sg.h`. -/
def SG_DXFER_FROM_DEV : Int := -3

/-- The macro `SG_TIMEOUT`. -/
def SG_TIMEOUT : Nat := 60000

/-- The macro `SG_UNMAP_CMD`. -/
def SG_UNMAP_CMD : Nat := 0x42

/-- The macro `SG_UNMAP_CMD_LEN`. -/
def SG_UNMAP_CMD_LEN : Nat := 10

/-- The macro `SG_UNMAP_PARAMETER_LEN`. -/
def SG_UNMAP_PARAMETER_LEN : Nat := 8 + 16

/-- The call `ioctl(fd, SG_IO, &io_hdr)` on a device in state `σ`: the value
returned, the bytes of the data buffer afterwards, and the new state. -/
abbrev sg_ioctl (σ : Type) := σ → sg_io_hdr → Int × List Nat × σ

/-- The request that `sg_unmap_scsi` hands to `ioctl`. -/
def sg_unmap_scsi_hdr (offset_lba length_lba : Nat) : sg_io_hdr :=
  let unmap_command :=
    store_bytes (SG_UNMAP_CMD :: List.replicate (SG_UNMAP_CMD_LEN - 1) 0) 7
      (u16_to_big_endian_bytes SG_UNMAP_PARAMETER_LEN)
  let parameter := List.replicate SG_UNMAP_PARAMETER_LEN 0
  let parameter := store_bytes parameter 0 (u16_to_big_endian_bytes (SG_UNMAP_PARAMETER_LEN - 2))
  let parameter := store_bytes parameter 2 (u16_to_big_endian_bytes (SG_UNMAP_PARAMETER_LEN - 8))
  let parameter := store_bytes parameter 8 (u64_to_big_endian_bytes offset_lba)
  let parameter := store_bytes parameter 16 (u32_to_big_endian_bytes length_lba)
  { interface_id := 'S'.toNat
    dxfer_direction := SG_DXFER_TO_DEV
    cmd_len := SG_UNMAP_CMD_LEN
    mx_sb_len := 255
    iovec_count := 0
    dxfer_len := SG_UNMAP_PARAMETER_LEN
    dxferp := parameter
    cmdp := unmap_command
    timeout := SG_TIMEOUT }

/-- The function `sg_unmap_scsi`: the value returned and the new device state. -/
def sg_unmap_scsi {σ : Type} (ioctl : sg_ioctl σ) (fd : σ) (offset_lba length_lba : Nat) :
    Int × σ :=
  let r := ioctl fd (sg_unmap_scsi_hdr offset_lba length_lba)
  (r.1, r.2.2)

/-- What a call of `sg_unmap` did: the value returned, the device state, and
the arguments `(current_offset, current_length)` of its calls of
`sg_unmap_scsi`, in order. -/
structure unmap_result (σ : Type) where
  ret : Int
  fd : σ
  issued : List (Nat × Nat)

/-- The `for` loop of `sg_unmap`, with the number of rounds still to run
(`block_descriptor_count - i`) as first argument. -/
def sg_unmap_loop {σ : Type} (ioctl : sg_ioctl σ) (maximum_unmap_lba_count : Nat) :
    Nat → σ → Nat → Nat → unmap_result σ
  | 0, fd, _, _ => { ret := 0, fd := fd, issued := [] }
  | rounds + 1, fd, offset_lba, length_lba =>
    let current_offset := offset_lba
    let current_length :=
      if length_lba > maximum_unmap_lba_count then maximum_unmap_lba_count else length_lba
    let offset_lba1 :=
      if length_lba > maximum_unmap_lba_count then (offset_lba + maximum_unmap_lba_count) % 2 ^ 64
      else offset_lba
    let length_lba1 :=
      if length_lba > maximum_unmap_lba_count then length_lba - maximum_unmap_lba_count
      else length_lba
    let r := sg_unmap_scsi ioctl fd current_offset current_length
    if r.1 ≠ 0 then
      { ret := r.1, fd := r.2, issued := [(current_offset, current_length)] }
    else
      let k := sg_unmap_loop ioctl maximum_unmap_lba_count rounds r.2 offset_lba1 length_lba1
      { k with issued := (current_offset, current_length) :: k.issued }

/-- The value of `block_descriptor_count` before the loop of `sg_unmap`. -/
def block_descriptor_count (length_lba maximum_unmap_lba_count : Nat) : Nat :=
  if length_lba % maximum_unmap_lba_count > 0 then
    (length_lba / maximum_unmap_lba_count + 1) % 2 ^ 64
  else length_lba / maximum_unmap_lba_count

/-- The function `sg_unmap`; `none` when it divides by a zero `sector_size` or
a zero `maximum_unmap_lba_count`. -/
def sg_unmap {σ : Type} (ioctl : sg_ioctl σ) (fd : σ) (info : device_info)
    (offset length : Nat) : Option (unmap_result σ) :=
  if info.sector_size = 0 then none
  else if info.maximum_unmap_lba_count = 0 then none
  else
    let offset_lba := offset / info.sector_size
    let length_lba := length / info.sector_size
    some (sg_unmap_loop ioctl info.maximum_unmap_lba_count
      (block_descriptor_count length_lba info.maximum_unmap_lba_count) fd offset_lba length_lba)

/-! ## Planning and the discard loop of `main` (src/sgblkdiscard.c) -/

/-- The value of `end_offset` after lines 213-217 of `main`. -/
def compute_end_offset (device_size offset length : Nat) : Nat :=
  let end_offset := (offset + length) % 2 ^ 64
  if end_offset < offset ∨ end_offset > device_size then device_size else end_offset

/-- The result of the checks of `main` between the device probe and the
discard loop: one of the `errx` exits, a modulus by a zero sector size, or the
`offset`, `end_offset` and `length` that the loop starts from. -/
inductive plan_outcome where
  | not_support_unmap
  | divide_by_zero
  | offset_not_aligned
  | offset_beyond_device
  | length_not_aligned
  | accepted (offset end_offset length : Nat)
  deriving DecidableEq

/-- Lines 195-227 of `main`: the checks on `offset`, `length` and `step`
against the probed `info`.  With no `-l` option `length` is `UINT64_MAX`, with
no `-p` option `step` is 0, with no `-o` option `offset` is 0. -/
def plan (info : device_info) (offset length step : Nat) : plan_outcome :=
  if !info.support_unmap then .not_support_unmap
  else if info.sector_size = 0 then .divide_by_zero
  else if offset % info.sector_size ≠ 0 then .offset_not_aligned
  else if offset > info.device_size then .offset_beyond_device
  else
    let end_offset := compute_end_offset info.device_size offset length
    let length := if step > 0 then step else (end_offset + 2 ^ 64 - offset) % 2 ^ 64
    if length % info.sector_size ≠ 0 then .length_not_aligned
    else .accepted offset end_offset length

/-- How the discard loop of `main` ends. -/
inductive loop_end where
  | completed
  | unmap_failed
  | divide_by_zero
  | still_running
  deriving DecidableEq

/-- What the discard loop of `main` did: how it ended, the device state, the
`(offset, length)` of each call of `sg_unmap`, and the
`(current_offset, current_length)` of each call of `sg_unmap_scsi`. -/
structure loop_result (σ : Type) where
  status : loop_end
  fd : σ
  ranges : List (Nat × Nat)
  commands : List (Nat × Nat)

/-- The loop `for (; offset < end_offset; offset += length)` of `main`, run
for at most `fuel` rounds; `still_running` when the loop has not ended by
then. -/
def discard_loop {σ : Type} (ioctl : sg_ioctl σ) (info : device_info) (end_offset : Nat) :
    Nat → σ → Nat → Nat → loop_result σ
  | 0, fd, offset, _ =>
    { status := if offset < end_offset then .still_running else .completed,
      fd := fd, ranges := [], commands := [] }
  | fuel + 1, fd, offset, length =>
    if offset < end_offset then
      let length1 :=
        if (offset + length) % 2 ^ 64 > end_offset then (end_offset + 2 ^ 64 - offset) % 2 ^ 64
        else length
      match sg_unmap ioctl fd info offset length1 with
      | none => { status := .divide_by_zero, fd := fd, ranges := [(offset, length1)], commands := [] }
      | some r =>
        if r.ret ≠ 0 then
          { status := .unmap_failed, fd := r.fd, ranges := [(offset, length1)],
            commands := r.issued }
        else
          let k := discard_loop ioctl info end_offset fuel r.fd ((offset + length1) % 2 ^ 64) length1
          { k with ranges := (offset, length1) :: k.ranges, commands := r.issued ++ k.commands }
    else { status := .completed, fd := fd, ranges := [], commands := [] }

/-- A device that accepts every command: `ioctl` returns 0 and leaves the
data buffer as it is. -/
def accepting_device : sg_ioctl Unit := fun fd hdr => (0, hdr.dxferp, fd)

/-! ## Reading the claims: numerals -/

/-- The integer that a decimal numeral denotes: its digits, least significant
first, taken in base 10. -/
def numeral_value (ds : List Char) : Nat :=
  Nat.ofDigits 10 (ds.reverse.map (fun c => c.toNat - 48))

/-- Whether a string starts with an integer token: after leading white space
and at most one sign comes a decimal digit. -/
def starts_with_integer_token (s : List Char) : Bool :=
  let t := s.dropWhile isspace
  let u := if t.head? == some '+' || t.head? == some '-' then t.tail else t
  (u.head?.map isdigit).getD false

/-- A device of 2^31 sectors of 512 bytes (1 TiB) that unmaps up to 2^32 - 1
blocks per command. -/
def tebibyte_device : device_info :=
  { last_block_address := 2 ^ 31 - 1
    sector_size := 512
    device_size := 2 ^ 40
    maximum_transfer_length := 0
    optimal_transfer_length := 0
    maximum_unmap_lba_count := 2 ^ 32 - 1
    maximum_unmap_block_descriptor_count := 1
    optimal_unmap_granularity := 1
    support_unmap := true }

/-! ## The device probe (src/utils.c) -/

/-- The macro `SG_INQUIRY_CMD`. -/
def SG_INQUIRY_CMD : Nat := 0x12

/-- The macro `SG_INQUIRY_CMD_LEN`. -/
def SG_INQUIRY_CMD_LEN : Nat := 6

/-- The macro `SG_READ_CAPACITY16_CMD`. -/
def SG_READ_CAPACITY16_CMD : Nat := 0x9e

/-- The macro `SG_READ_CAPACITY16_CMD_LEN`. -/
def SG_READ_CAPACITY16_CMD_LEN : Nat := 16

/-- The macro `SG_READ_CAPACITY16_SERVICE_ACTION`. -/
def SG_READ_CAPACITY16_SERVICE_ACTION : Nat := 0x10

/-- The macro `SG_READ_CAPACITY16_REPLY_LEN`. -/
def SG_READ_CAPACITY16_REPLY_LEN : Nat := 32

/-- The macro `SG_BLOCK_LIMITS_VPD_PAGE_CODE`. -/
def SG_BLOCK_LIMITS_VPD_PAGE_CODE : Nat := 0xb0

/-- The macro `SG_BLOCK_LIMITS_VPD_PAGE_LEN`. -/
def SG_BLOCK_LIMITS_VPD_PAGE_LEN : Nat := 64

/-- The request that `sg_read_capacity16` hands to `ioctl`. -/
def sg_read_capacity16_hdr : sg_io_hdr :=
  let command :=
    store_bytes
      (SG_READ_CAPACITY16_CMD :: SG_READ_CAPACITY16_SERVICE_ACTION ::
        List.replicate (SG_READ_CAPACITY16_CMD_LEN - 2) 0)
      10 (u32_to_big_endian_bytes SG_READ_CAPACITY16_REPLY_LEN)
  { interface_id := 'S'.toNat
    dxfer_direction := SG_DXFER_FROM_DEV
    cmd_len := SG_READ_CAPACITY16_CMD_LEN
    mx_sb_len := 255
    iovec_count := 0
    dxfer_len := SG_READ_CAPACITY16_REPLY_LEN
    dxferp := List.replicate SG_READ_CAPACITY16_REPLY_LEN 0
    cmdp := command
    timeout := SG_TIMEOUT }

/-- The function `sg_read_capacity16`: the value returned, the record that
`info` points to afterwards, and the new device state. -/
def sg_read_capacity16 {σ : Type} (ioctl : sg_ioctl σ) (fd : σ) (info : device_info) :
    Int × device_info × σ :=
  let r := ioctl fd sg_read_capacity16_hdr
  if r.1 ≠ 0 then (r.1, info, r.2.2)
  else
    let reply := r.2.1
    let last_block_address := u64_from_big_endian_bytes reply
    let sector_size := u32_from_big_endian_bytes (reply.drop 8)
    (r.1,
     { info with
       last_block_address := last_block_address
       sector_size := sector_size
       device_size := ((last_block_address + 1) % 2 ^ 64 * sector_size) % 2 ^ 64 },
     r.2.2)

/-- The request that `sg_inquiry_limits_vdp` hands to `ioctl`. -/
def sg_inquiry_limits_vdp_hdr : sg_io_hdr :=
  let command :=
    store_bytes
      (SG_INQUIRY_CMD :: 1 :: SG_BLOCK_LIMITS_VPD_PAGE_CODE ::
        List.replicate (SG_INQUIRY_CMD_LEN - 3) 0)
      3 (u16_to_big_endian_bytes SG_BLOCK_LIMITS_VPD_PAGE_LEN)
  { interface_id := 'S'.toNat
    dxfer_direction := SG_DXFER_FROM_DEV
    cmd_len := SG_INQUIRY_CMD_LEN
    mx_sb_len := 255
    iovec_count := 0
    dxfer_len := SG_BLOCK_LIMITS_VPD_PAGE_LEN
    dxferp := List.replicate SG_BLOCK_LIMITS_VPD_PAGE_LEN 0
    cmdp := command
    timeout := SG_TIMEOUT }

/-- The function `sg_inquiry_limits_vdp`: the value returned, the record that
`info` points to afterwards, and the new device state. -/
def sg_inquiry_limits_vdp {σ : Type} (ioctl : sg_ioctl σ) (fd : σ) (info : device_info) :
    Int × device_info × σ :=
  let r := ioctl fd sg_inquiry_limits_vdp_hdr
  if r.1 ≠ 0 then (r.1, info, r.2.2)
  else
    let reply := r.2.1
    let maximum_unmap_lba_count := u32_from_big_endian_bytes (reply.drop 20)
    (r.1,
     { info with
       maximum_transfer_length := u32_from_big_endian_bytes (reply.drop 8)
       optimal_transfer_length := u32_from_big_endian_bytes (reply.drop 12)
       maximum_unmap_lba_count := maximum_unmap_lba_count
       maximum_unmap_block_descriptor_count := u32_from_big_endian_bytes (reply.drop 24)
       optimal_unmap_granularity := u32_from_big_endian_bytes (reply.drop 28)
       support_unmap := decide (maximum_unmap_lba_count ≠ 0) },
     r.2.2)

/-- The function `sg_get_device_info`, on a non-null `info`: the capacity
query, and only when it returned 0 the block-limits query. -/
def sg_get_device_info {σ : Type} (ioctl : sg_ioctl σ) (fd : σ) (info : device_info) :
    Int × device_info × σ :=
  let r1 := sg_read_capacity16 ioctl fd info
  if r1.1 ≠ 0 then r1
  else sg_inquiry_limits_vdp ioctl r1.2.2 r1.2.1

/-- The record `device_info_t info = {0}` that `main` starts from. -/
def device_info_zero : device_info :=
  { last_block_address := 0
    sector_size := 0
    device_size := 0
    maximum_transfer_length := 0
    optimal_transfer_length := 0
    maximum_unmap_lba_count := 0
    maximum_unmap_block_descriptor_count := 0
    optimal_unmap_granularity := 0
    support_unmap := false }

/-! ## `main` from the checks to the end of the loop -/

/-- What `main` did after the probe: how its checks ended and, when they
passed, what the discard loop did. -/
structure main_result (σ : Type) where
  checks : plan_outcome
  loop : Option (loop_result σ)

/-- Lines 195-315 of `main` on a probed `info`: the checks of `plan` and, when
they pass, the discard loop for at most `fuel` rounds.  The confirmation
prompt and the signature probe between the two (lines 229-280) belong to
other programs and are taken to let the run continue. -/
def main_after_probe {σ : Type} (ioctl : sg_ioctl σ) (info : device_info) (fuel : Nat) (fd : σ)
    (offset length step : Nat) : main_result σ :=
  match plan info offset length step with
  | .accepted offset1 end_offset length1 =>
    { checks := .accepted offset1 end_offset length1
      loop := some (discard_loop ioctl info end_offset fuel fd offset1 length1) }
  | rejected => { checks := rejected, loop := none }

/-- The unmap commands that a run of `main` issued. -/
def main_result.commands {σ : Type} (r : main_result σ) : List (Nat × Nat) :=
  match r.loop with
  | some l => l.commands
  | none => []

/-! ## Reading the claims: byte fields, command sequences, test devices -/

/-- The big-endian value of the `width` bytes of `reply` from index `start`
on. -/
def big_endian_at (reply : List Nat) (start width : Nat) : Nat :=
  (List.range width).foldl (fun acc i => acc * 256 + reply.getD (start + i) 0) 0

/-- The byte of index `i` in the big-endian encoding of `v` on `width` bytes:
the most significant byte has index 0. -/
def big_endian_byte (width v i : Nat) : Nat :=
  v / 256 ^ (width - 1 - i) % 256

/-- The split sequence of `sg_unmap`: the commands that its loop issues over
`rounds` rounds when every command is accepted. -/
def unmap_sequence (maximum_unmap_lba_count rounds offset_lba length_lba : Nat) :
    List (Nat × Nat) :=
  (sg_unmap_loop accepting_device maximum_unmap_lba_count rounds () offset_lba length_lba).issued

/-- The status that the transport returns for the command of index `j` when
the commands of a list are sent to it one after the other from state `fd`;
0 past the end of the list. -/
def nth_status {σ : Type} (ioctl : sg_ioctl σ) : σ → List (Nat × Nat) → Nat → Int
  | _, [], _ => 0
  | fd, c :: _, 0 => (sg_unmap_scsi ioctl fd c.1 c.2).1
  | fd, c :: rest, j + 1 => nth_status ioctl (sg_unmap_scsi ioctl fd c.1 c.2).2 rest j

/-- A device that accepts every command and answers the capacity query with
`capacity` and every other query with `limits`. -/
def replying_device (capacity limits : List Nat) : sg_ioctl Unit :=
  fun fd hdr =>
    (0, if hdr.cmdp.head? = some SG_READ_CAPACITY16_CMD then capacity else limits, fd)

/-- A device that rejects with status `-1` every unmap command that starts at
block `bad` and accepts every other command. -/
def rejecting_device (bad : Nat) : sg_ioctl Unit :=
  fun fd hdr =>
    (if u64_from_big_endian_bytes (hdr.dxferp.drop 8) = bad then -1 else 0, hdr.dxferp, fd)

/-- A capacity reply: last block address `2^31 - 1`, sector size 512. -/
def capacity_reply_tebibyte : List Nat :=
  u64_to_big_endian_bytes (2 ^ 31 - 1) ++ u32_to_big_endian_bytes 512 ++ List.replicate 20 0

/-- A capacity reply: last block address `2^64 - 1`, sector size 512. -/
def capacity_reply_overflow : List Nat :=
  u64_to_big_endian_bytes (2 ^ 64 - 1) ++ u32_to_big_endian_bytes 512 ++ List.replicate 20 0

/-- A block-limits reply: transfer lengths 65535 and 128, unmap limits
`2^32 - 1` blocks and 1 descriptor, granularity 8. -/
def limits_reply_example : List Nat :=
  List.replicate 8 0 ++ u32_to_big_endian_bytes 65535 ++ u32_to_big_endian_bytes 128
    ++ List.replicate 4 0 ++ u32_to_big_endian_bytes (2 ^ 32 - 1) ++ u32_to_big_endian_bytes 1
    ++ u32_to_big_endian_bytes 8 ++ List.replicate 32 0

/-- A device of `2^55 - 1` sectors of 512 bytes (`2^64 - 512` bytes) that
unmaps up to `2^32 - 1` blocks per command. -/
def huge_device : device_info :=
  { last_block_address := 2 ^ 55 - 2
    sector_size := 512
    device_size := 2 ^ 64 - 512
    maximum_transfer_length := 0
    optimal_transfer_length := 0
    maximum_unmap_lba_count := 2 ^ 32 - 1
    maximum_unmap_block_descriptor_count := 1
    optimal_unmap_granularity := 1
    support_unmap := true }

/-! ## Reading the claims: the fractional amount, a device without medium -/

/-- The amount that the `do ... while (frac)` loop of `parse_size` adds to `x`
in at most `fuel` rounds, as an unbounded sum: `frac_accumulate` without the
reduction modulo `2 ^ 64` of `x`. -/
def frac_added (frac_base frac_div : Nat) : Nat → Nat → Nat → Nat
  | 0, _, _ => 0
  | fuel + 1, frac, frac_poz =>
    let seg := frac % 10
    let seg_div := frac_div / frac_poz
    let frac1 := frac / 10
    let frac_poz1 := (frac_poz * 10) % 2 ^ 64
    let added := if seg ≠ 0 ∧ seg_div / seg ≠ 0 then frac_base / (seg_div / seg) else 0
    if frac1 ≠ 0 then added + frac_added frac_base frac_div fuel frac1 frac_poz1 else added

/-- A capacity reply left as the zeros the buffer was initialised with, as
when the device has no medium: last block address 0, sector size 0. -/
def capacity_reply_zeros : List Nat := List.replicate 32 0

/-! ## Lemmas on the C library model and on the parts of `parse_size` -/

theorem isdigit_iff (c : Char) : isdigit c = true ↔ 48 ≤ c.toNat ∧ c.toNat ≤ 57 := by
  simp [isdigit]

theorem digit_value_of_isdigit {c : Char} (h : isdigit c = true) :
    digit_value c = c.toNat - 48 := by
  rw [isdigit_iff] at h
  simp [digit_value, h]

theorem digit_value_lt_ten_iff (c : Char) : digit_value c < 10 ↔ isdigit c = true := by
  rw [isdigit_iff]
  unfold digit_value
  split
  · omega
  · split
    · omega
    · split <;> omega

theorem isspace_of_isdigit {c : Char} (h : isdigit c = true) : isspace c = false := by
  rw [isdigit_iff] at h
  simp [isspace]
  omega

theorem ne_of_isdigit {c d : Char} (h : isdigit c = true) (hd : isdigit d = false) : c ≠ d := by
  rintro rfl
  simp [h] at hd

theorem digits_value_append (base : Nat) (ds : List Char) (c : Char) :
    digits_value base (ds ++ [c]) = digits_value base ds * base + digit_value c := by
  simp [digits_value, List.foldl_append]

theorem digits_value_eq_numeral_value (ds : List Char) (hd : ∀ c ∈ ds, isdigit c = true) :
    digits_value 10 ds = numeral_value ds := by
  induction ds using List.reverseRecOn with
  | nil => simp [digits_value, numeral_value]
  | append_singleton l c ih =>
    have hc : isdigit c = true := hd c (by simp)
    have hl : ∀ c ∈ l, isdigit c = true := fun x hx => hd x (by simp [hx])
    rw [digits_value_append, ih hl, digit_value_of_isdigit hc]
    simp [numeral_value, Nat.ofDigits_cons]
    ring

theorem hex_lead_of_head_ne_zero {c : Char} (t : List Char) (h : c ≠ '0') :
    hex_lead (c :: t) = false := by
  match t with
  | [] => rfl
  | [_] => rfl
  | _ :: _ :: _ => simp [hex_lead, h]

theorem takeWhile_isdigit_append (ds rest : List Char) (hd : ∀ c ∈ ds, isdigit c = true)
    (hr : ∀ c, rest.head? = some c → isdigit c = false) :
    (ds ++ rest).takeWhile (fun c => decide (digit_value c < 10)) = ds
    ∧ (ds ++ rest).dropWhile (fun c => decide (digit_value c < 10)) = rest := by
  have h1 : ∀ a ∈ ds, (fun c => decide (digit_value c < 10)) a = true := by
    intro a ha
    simpa [digit_value_lt_ten_iff] using hd a ha
  rw [List.takeWhile_append_of_pos h1, List.dropWhile_append_of_pos h1]
  cases rest with
  | nil => simp
  | cons r rs =>
    have := hr r rfl
    have h2 : ¬ digit_value r < 10 := by
      rw [digit_value_lt_ten_iff]; simp [this]
    simp [List.takeWhile_cons, List.dropWhile_cons, h2]

/-- What `strtoull` does on a decimal numeral without a leading zero that is
followed by the end of the string or by a character that is no digit. -/
theorem strtoull_numeral (ds rest : List Char) (hne : ds ≠ [])
    (hd : ∀ c ∈ ds, isdigit c = true) (h0 : ds.head? ≠ some '0')
    (hr : ∀ c, rest.head? = some c → isdigit c = false) :
    strtoull (ds ++ rest) =
      if UINT64_MAX < numeral_value ds then
        { value := UINT64_MAX, endp := rest, moved := true, errno := ERANGE }
      else { value := numeral_value ds, endp := rest, moved := true, errno := 0 } := by
  obtain ⟨c, t, rfl⟩ := List.exists_cons_of_ne_nil hne
  have hc : isdigit c = true := hd c (by simp)
  have hc0 : c ≠ '0' := by simpa using h0
  have hsp : isspace c = false := isspace_of_isdigit hc
  have hm : c ≠ '-' := ne_of_isdigit hc (by decide)
  have hp : c ≠ '+' := ne_of_isdigit hc (by decide)
  have htd := takeWhile_isdigit_append (c :: t) rest hd hr
  have hv := digits_value_eq_numeral_value (c :: t) hd
  have hh : hex_lead (c :: (t ++ rest)) = false := hex_lead_of_head_ne_zero _ hc0
  simp only [List.cons_append] at htd ⊢
  simp [strtoull, List.dropWhile_cons, hsp, hh, hm, hp, hc0, htd.1, htd.2, hv]

theorem strtoull_zero (rest : List Char)
    (hr : ∀ c, rest.head? = some c → isdigit c = false ∧ c ≠ 'x' ∧ c ≠ 'X') :
    strtoull ('0' :: rest) = { value := 0, endp := rest, moved := true, errno := 0 } := by
  have hh : hex_lead ('0' :: rest) = false := by
    match rest, hr with
    | [], _ => rfl
    | [_], _ => rfl
    | c1 :: _ :: _, hr =>
      have := hr c1 rfl
      simp [hex_lead, this.2.1, this.2.2]
  have ht : rest.takeWhile (fun c => decide (digit_value c < 8)) = []
      ∧ rest.dropWhile (fun c => decide (digit_value c < 8)) = rest := by
    cases rest with
    | nil => simp
    | cons r rs =>
      have h1 := (hr r rfl).1
      have h2 : ¬ digit_value r < 10 := by
        rw [digit_value_lt_ten_iff]; simp [h1]
      have h3 : ¬ digit_value r < 8 := by omega
      simp [List.takeWhile_cons, List.dropWhile_cons, h3]
  have hz : digit_value '0' = 0 := by decide
  have hsp : isspace '0' = false := by decide
  simp [strtoull, List.dropWhile_cons, hsp, hh, List.takeWhile_cons, hz, ht.1, ht.2,
    digits_value, UINT64_MAX]

/-- What `strtoull` does on a decimal numeral that is the single digit 0 or
does not start with 0, followed by the end of the string or by a character
that is neither a digit nor `x` or `X`. -/
theorem strtoull_decimal (ds rest : List Char) (hne : ds ≠ [])
    (hd : ∀ c ∈ ds, isdigit c = true) (h0 : ds.head? ≠ some '0' ∨ ds = ['0'])
    (hr : ∀ c, rest.head? = some c → isdigit c = false ∧ c ≠ 'x' ∧ c ≠ 'X') :
    strtoull (ds ++ rest) =
      if UINT64_MAX < numeral_value ds then
        { value := UINT64_MAX, endp := rest, moved := true, errno := ERANGE }
      else { value := numeral_value ds, endp := rest, moved := true, errno := 0 } := by
  rcases h0 with h0 | rfl
  · exact strtoull_numeral ds rest hne hd h0 (fun c hc => (hr c hc).1)
  · have hv : numeral_value ['0'] = 0 := by decide
    have hm : ¬ UINT64_MAX < 0 := by decide
    rw [hv, if_neg hm]
    exact strtoull_zero rest hr

theorem do_scale_by_power_ok (base : Nat) (hb : 0 < base) (power x : Nat)
    (h : x * base ^ power ≤ UINT64_MAX) :
    do_scale_by_power x base power = (0, x * base ^ power) := by
  induction power generalizing x with
  | zero => simp [do_scale_by_power]
  | succ k ih =>
    have hk : 0 < base ^ k := Nat.pow_pos hb
    have e : x * base ^ (k + 1) = x * base * base ^ k := by ring
    have h1 : x * base ≤ UINT64_MAX := by
      calc x * base ≤ x * base * base ^ k := Nat.le_mul_of_pos_right _ hk
        _ ≤ UINT64_MAX := by rw [← e]; exact h
    have h2 : ¬ UINT64_MAX / base < x := by
      rw [not_lt, Nat.le_div_iff_mul_le hb]
      exact h1
    rw [do_scale_by_power, if_neg h2, ih (x * base) (by rw [← e]; exact h), e]

theorem do_scale_by_power_overflow (base : Nat) (hb : 0 < base) (power x : Nat)
    (hx : x ≤ UINT64_MAX) (h : UINT64_MAX < x * base ^ power) :
    (do_scale_by_power x base power).1 = -ERANGE := by
  induction power generalizing x with
  | zero => simp at h; omega
  | succ k ih =>
    rw [do_scale_by_power]
    split
    · rfl
    · rename_i h2
      rw [not_lt, Nat.le_div_iff_mul_le hb] at h2
      have e : x * base ^ (k + 1) = x * base * base ^ k := by ring
      exact ih (x * base) h2 (by rw [← e]; exact h)

theorem check_suffix_letter (dp : Option (List Char)) (fuel : Nat) (c0 : Char)
    (x frac frac_zeros : Nat) :
    check_suffix dp (fuel + 1) [c0] x frac frac_zeros
      = parse_size_scale c0 1024 x frac frac_zeros := by
  simp [check_suffix]

theorem check_suffix_letter_iB (dp : Option (List Char)) (fuel : Nat) (c0 : Char)
    (x frac frac_zeros : Nat) :
    check_suffix dp (fuel + 1) [c0, 'i', 'B'] x frac frac_zeros
      = parse_size_scale c0 1024 x frac frac_zeros
    ∧ check_suffix dp (fuel + 1) [c0, 'i', 'b'] x frac frac_zeros
      = parse_size_scale c0 1024 x frac frac_zeros := by
  simp [check_suffix]

theorem check_suffix_letter_B (dp : Option (List Char)) (fuel : Nat) (c0 : Char)
    (x frac frac_zeros : Nat) :
    check_suffix dp (fuel + 1) [c0, 'B'] x frac frac_zeros
      = parse_size_scale c0 1000 x frac frac_zeros
    ∧ check_suffix dp (fuel + 1) [c0, 'b'] x frac frac_zeros
      = parse_size_scale c0 1000 x frac frac_zeros := by
  simp [check_suffix]

/-- The first steps of `parse_size` on a decimal numeral followed by `rest`:
a range error when the numeral exceeds `UINT64_MAX`, the value itself when
nothing follows, and otherwise the suffix check on what follows. -/
theorem parse_size_decimal (dp : Option (List Char)) (ds rest : List Char) (hne : ds ≠ [])
    (hd : ∀ c ∈ ds, isdigit c = true) (h0 : ds.head? ≠ some '0' ∨ ds = ['0'])
    (hr : ∀ c, rest.head? = some c → isdigit c = false ∧ c ≠ 'x' ∧ c ≠ 'X') :
    parse_size dp (ds ++ rest) =
      if UINT64_MAX < numeral_value ds then .returned (-ERANGE) 0
      else if rest.isEmpty then .returned 0 (numeral_value ds)
      else check_suffix dp (rest.length + 1) rest (numeral_value ds) 0 0 := by
  have hs := strtoull_decimal ds rest hne hd h0 hr
  obtain ⟨c, t, rfl⟩ := List.exists_cons_of_ne_nil hne
  have hc : isdigit c = true := hd c (by simp)
  have hsp : isspace c = false := isspace_of_isdigit hc
  have hm : c ≠ '-' := ne_of_isdigit hc (by decide)
  unfold parse_size
  rw [hs]
  by_cases hov : UINT64_MAX < numeral_value (c :: t)
  · simp [hov, List.dropWhile_cons, hsp, hm, ERANGE]
  · simp [hov, List.dropWhile_cons, hsp, hm]

theorem suffix_power_of_letter (i : Nat) (X : Char)
    (hX : "KMGTPEZY".toList[i]? = some X ∨ "kmgtpezy".toList[i]? = some X) :
    suffix_power X = some (i + 1)
    ∧ isdigit X = false ∧ X ≠ 'x' ∧ X ≠ 'X' ∧ X ≠ 'i' ∧ X ≠ 'B' ∧ X ≠ 'b' ∧ X ≠ '0' := by
  have hi : i < 8 := by
    rcases hX with h | h
    · have := (List.getElem?_eq_some.mp h).1
      simpa using this
    · have := (List.getElem?_eq_some.mp h).1
      simpa using this
  interval_cases i <;> rcases hX with h | h <;> simp at h <;> subst h <;> decide

theorem parse_size_scale_ok (X : Char) (k base x frac_zeros : Nat) (hb : 0 < base)
    (hk : suffix_power X = some k) (h : x * base ^ k ≤ UINT64_MAX) :
    parse_size_scale X base x 0 frac_zeros = .returned 0 (x * base ^ k) := by
  simp [parse_size_scale, hk, do_scale_by_power_ok base hb k x h]

theorem strtoull_no_token (s : List Char) (h : starts_with_integer_token s = false) :
    strtoull s = { value := 0, endp := s, moved := false, errno := 0 } := by
  unfold starts_with_integer_token at h
  unfold strtoull
  simp only [] at h ⊢
  generalize hu : (if ((s.dropWhile isspace).head? == some '+'
    || (s.dropWhile isspace).head? == some '-') = true
    then (s.dropWhile isspace).tail else s.dropWhile isspace) = u at h
  have hu2 : (if ((s.dropWhile isspace).head? == some '-'
    || (s.dropWhile isspace).head? == some '+') = true
    then (s.dropWhile isspace).tail else s.dropWhile isspace) = u := by
    rw [← hu, Bool.or_comm]
  rw [hu2]
  cases u with
  | nil => simp [hex_lead]
  | cons c t =>
    have hc : isdigit c = false := by simpa using h
    have hc0 : c ≠ '0' := by
      rintro rfl
      exact absurd hc (by decide)
    have hh : hex_lead (c :: t) = false := hex_lead_of_head_ne_zero t hc0
    have h2 : ¬ digit_value c < 10 := by
      rw [digit_value_lt_ten_iff]; simp [hc]
    simp [hh, hc0, List.takeWhile_cons, h2]


theorem parse_size_scale_overflow (X : Char) (k base x frac frac_zeros : Nat) (hb : 0 < base)
    (hk : suffix_power X = some k) (hx : x ≤ UINT64_MAX) (h : UINT64_MAX < x * base ^ k) :
    ∃ result, parse_size_scale X base x frac frac_zeros = .returned (-ERANGE) result := by
  have hrc := do_scale_by_power_overflow base hb k x hx h
  unfold parse_size_scale
  simp only [hk]
  generalize do_scale_by_power x base k = r at hrc
  obtain ⟨rc, x1⟩ := r
  simp only at hrc
  subst hrc
  split
  · exact ⟨_, rfl⟩
  · exact ⟨_, rfl⟩

theorem takeWhile_dropWhile_zero_append (fs : List Char) (X : Char) (tail : List Char)
    (hX : X ≠ '0') :
    (fs ++ X :: tail).takeWhile (fun c => c == '0') = fs.takeWhile (fun c => c == '0')
    ∧ (fs ++ X :: tail).dropWhile (fun c => c == '0')
        = fs.dropWhile (fun c => c == '0') ++ X :: tail := by
  induction fs with
  | nil => simp [List.takeWhile_cons, List.dropWhile_cons, hX]
  | cons c t ih =>
    by_cases hc : c = '0'
    · simp [List.takeWhile_cons, List.dropWhile_cons, hc, ih.1, ih.2]
    · simp [List.takeWhile_cons, List.dropWhile_cons, hc]

theorem head_dropWhile_zero (fs : List Char) :
    (fs.dropWhile (fun c => c == '0')).head? ≠ some '0' := by
  have h := List.head?_dropWhile_not (fun c => c == '0') fs
  intro h2
  rw [h2] at h
  simp at h

/-- One pass of `parse_size` through the fractional part: at `check_suffix`
with `p` at a decimal point that is followed by digits `fs` and a suffix
letter, in the C locale and with no fraction read yet, the leading zeros are
counted, the remaining digits go through `strtoull`, and the check resumes
at the suffix letter. -/
theorem check_suffix_fraction (fuel : Nat) (fs : List Char) (i : Nat) (X : Char)
    (tail : List Char) (x frac_zeros : Nat)
    (hfs : ∀ c ∈ fs, isdigit c = true)
    (hX : "KMGTPEZY".toList[i]? = some X ∨ "kmgtpezy".toList[i]? = some X) :
    check_suffix c_locale (fuel + 1) ('.' :: (fs ++ X :: tail)) x 0 frac_zeros =
      if fs.dropWhile (fun c => c == '0') = [] then
        check_suffix c_locale fuel (X :: tail) x 0
          (frac_zeros + (fs.takeWhile (fun c => c == '0')).length)
      else if UINT64_MAX < numeral_value (fs.dropWhile (fun c => c == '0')) then
        .returned (-ERANGE) 0
      else
        check_suffix c_locale fuel (X :: tail) x
          (numeral_value (fs.dropWhile (fun c => c == '0')))
          (frac_zeros + (fs.takeWhile (fun c => c == '0')).length) := by
  obtain ⟨-, hXd, hx1, hx2, hxi, hxB, hxb, hx0⟩ := suffix_power_of_letter i X hX
  have htd := takeWhile_dropWhile_zero_append fs X tail hx0
  -- the character after the decimal point is a digit or the suffix letter
  obtain ⟨d, t2, ht, hdi, hdB, hdb⟩ : ∃ d t2, fs ++ X :: tail = d :: t2
      ∧ d ≠ 'i' ∧ d ≠ 'B' ∧ d ≠ 'b' := by
    cases fs with
    | nil => exact ⟨X, tail, rfl, hxi, hxB, hxb⟩
    | cons c t =>
      have hc : isdigit c = true := hfs c (by simp)
      exact ⟨c, t ++ X :: tail, rfl, ne_of_isdigit hc (by decide), ne_of_isdigit hc (by decide),
        ne_of_isdigit hc (by decide)⟩
  have hfs2 : ∀ c ∈ fs.dropWhile (fun c => c == '0'), isdigit c = true :=
    fun c hc => hfs c ((List.dropWhile_sublist _).subset hc)
  have hr : ∀ c, (X :: tail).head? = some c → isdigit c = false := by
    intro c hc
    simp only [List.head?_cons, Option.some.injEq] at hc
    subst hc
    exact hXd
  rw [ht] at htd ⊢
  simp only [check_suffix, c_locale]
  simp only [List.head?_cons, List.isPrefixOf, List.drop, List.length_cons, List.length_nil,
    htd.1, htd.2]
  by_cases hnil : fs.dropWhile (fun c => c == '0') = []
  · simp [hnil, hdi, hdB, hdb, hXd]
  · obtain ⟨c, t, hct⟩ := List.exists_cons_of_ne_nil hnil
    have hc : isdigit c = true := hfs2 c (by simp [hct])
    have hs := strtoull_numeral (fs.dropWhile (fun c => c == '0')) (X :: tail) hnil hfs2
      (head_dropWhile_zero fs) hr
    rw [if_neg hnil, hs]
    by_cases hov : UINT64_MAX < numeral_value (fs.dropWhile (fun c => c == '0'))
    · have hov2 := hov
      rw [hct] at hov2
      simp [hov2, hct, hdi, hdB, hdb, hc, ERANGE]
    · have hov2 := hov
      rw [hct] at hov2
      simp [hov2, hct, hdi, hdB, hdb, hc]

/-- At `check_suffix` with `p` at a suffix letter followed by one of the
recognised endings, the base is chosen and the scaling step is reached. -/
theorem check_suffix_recognised (dp : Option (List Char)) (fuel : Nat) (X : Char)
    (tail : List Char) (base x frac frac_zeros : Nat)
    (htail : (base = 1024 ∧ (tail = [] ∨ tail = ['i', 'B'] ∨ tail = ['i', 'b']))
      ∨ (base = 1000 ∧ (tail = ['B'] ∨ tail = ['b']))) :
    check_suffix dp (fuel + 1) (X :: tail) x frac frac_zeros
      = parse_size_scale X base x frac frac_zeros := by
  rcases htail with ⟨rfl, rfl | rfl | rfl⟩ | ⟨rfl, rfl | rfl⟩
  · exact check_suffix_letter dp fuel X x frac frac_zeros
  · exact (check_suffix_letter_iB dp fuel X x frac frac_zeros).1
  · exact (check_suffix_letter_iB dp fuel X x frac frac_zeros).2
  · exact (check_suffix_letter_B dp fuel X x frac frac_zeros).1
  · exact (check_suffix_letter_B dp fuel X x frac frac_zeros).2


/-! ## Lemmas on `sg_unmap` -/

/-- The command count of `sg_unmap` is the quotient rounded up, and it is the
only number of rounds `n` with `(n - 1) * M < length_lba ≤ n * M`. -/
theorem block_descriptor_count_eq (length_lba M : Nat) (hM : 1 ≤ M) (hl : length_lba < 2 ^ 64) :
    block_descriptor_count length_lba M = (length_lba + M - 1) / M
    ∧ length_lba ≤ block_descriptor_count length_lba M * M
    ∧ (block_descriptor_count length_lba M ≠ 0 →
        (block_descriptor_count length_lba M - 1) * M < length_lba) := by
  have hdm := Nat.div_add_mod length_lba M
  have hmod : length_lba % M < M := Nat.mod_lt _ (by omega)
  have hq : length_lba / M ≤ length_lba := Nat.div_le_self _ _
  generalize hqd : length_lba / M = q at *
  generalize hrd : length_lba % M = r at *
  unfold block_descriptor_count
  rw [hqd, hrd]
  by_cases hr : r > 0
  · have hq1 : (q + 1) % 2 ^ 64 = q + 1 := by
      apply Nat.mod_eq_of_lt
      have : q < length_lba := by
        cases M with
        | zero => omega
        | succ m =>
          have : (m + 1) * q = m * q + q := by ring
          omega
      omega
    rw [if_pos hr, hq1]
    refine ⟨?_, ?_, ?_⟩
    · symm
      apply Nat.div_eq_of_lt_le
      · have : (q + 1) * M = M * q + M := by ring
        omega
      · have : (q + 1 + 1) * M = M * q + M + M := by ring
        omega
    · have : (q + 1) * M = M * q + M := by ring
      omega
    · intro _
      have : (q + 1 - 1) * M = M * q := by rw [Nat.add_sub_cancel, Nat.mul_comm]
      omega
  · have hr0 : r = 0 := by omega
    subst hr0
    rw [if_neg hr]
    refine ⟨?_, ?_, ?_⟩
    · symm
      apply Nat.div_eq_of_lt_le
      · have : q * M = M * q := Nat.mul_comm _ _
        omega
      · have : (q + 1) * M = M * q + M := by ring
        omega
    · have : q * M = M * q := Nat.mul_comm _ _
      omega
    · intro hq0
      have : (q - 1) * M + M = M * q := by
        have : q = (q - 1) + 1 := by omega
        calc (q - 1) * M + M = ((q - 1) + 1) * M := by ring
          _ = q * M := by rw [← this]
          _ = M * q := Nat.mul_comm _ _
      omega

/-- The loop of `sg_unmap` on a device that accepts every command, run for
the `n` rounds that `length_lba` needs: it returns 0 and issues `n` commands,
each of 1 to `M` blocks, starting at `offset_lba`, each next one where the
previous one ended, and together they cover `length_lba` blocks. -/
theorem sg_unmap_loop_accepting {σ : Type} (ioctl : sg_ioctl σ) (M : Nat) (hM : 1 ≤ M)
    (hok : ∀ fd hdr, (ioctl fd hdr).1 = 0) (n : Nat) :
    ∀ (fd : σ) (offset_lba length_lba : Nat),
      offset_lba + length_lba < 2 ^ 64 →
      length_lba ≤ n * M → (n ≠ 0 → (n - 1) * M < length_lba) →
      (sg_unmap_loop ioctl M n fd offset_lba length_lba).ret = 0
      ∧ (sg_unmap_loop ioctl M n fd offset_lba length_lba).issued.length = n
      ∧ (∀ c ∈ (sg_unmap_loop ioctl M n fd offset_lba length_lba).issued, 1 ≤ c.2 ∧ c.2 ≤ M)
      ∧ (∀ c, (sg_unmap_loop ioctl M n fd offset_lba length_lba).issued.head? = some c →
          c.1 = offset_lba)
      ∧ List.Chain' (fun a b => b.1 = a.1 + a.2)
          (sg_unmap_loop ioctl M n fd offset_lba length_lba).issued
      ∧ ((sg_unmap_loop ioctl M n fd offset_lba length_lba).issued.map Prod.snd).sum
          = length_lba := by
  induction n with
  | zero =>
    intro fd off len _ hle _
    have : len = 0 := by omega
    subst this
    simp [sg_unmap_loop]
  | succ k ih =>
    intro fd off len hsum hle hgt
    have hgt2 : k * M < len := by simpa using hgt
    have hret : (sg_unmap_scsi ioctl fd off (if len > M then M else len)).1 = 0 := by
      simp [sg_unmap_scsi, hok]
    by_cases hbig : len > M
    · -- a full command, more to follow
      have hk : k ≠ 0 := by
        rintro rfl
        simp at hle
        omega
      have hoff : (off + M) % 2 ^ 64 = off + M := Nat.mod_eq_of_lt (by omega)
      have hle2 : len - M ≤ k * M := by
        have : (k + 1) * M = k * M + M := by ring
        omega
      have hgt3 : k ≠ 0 → (k - 1) * M < len - M := by
        intro _
        have : (k - 1) * M + M = k * M := by
          have hk1 : k = (k - 1) + 1 := by omega
          calc (k - 1) * M + M = ((k - 1) + 1) * M := by ring
            _ = k * M := by rw [← hk1]
        omega
      obtain ⟨h1, h2, h3, h4, h5, h6⟩ :=
        ih (sg_unmap_scsi ioctl fd off M).2 (off + M) (len - M) (by omega) hle2 hgt3
      simp only [if_pos hbig] at hret
      simp only [sg_unmap_loop, if_pos hbig, hret, ne_eq, not_true_eq_false, if_false, hoff]
      refine ⟨h1, by simp [h2], ?_, by simp, ?_, ?_⟩
      · intro c hc
        rcases List.mem_cons.mp hc with rfl | hc
        · exact ⟨hM, le_refl _⟩
        · exact h3 c hc
      · rw [List.chain'_cons']
        refine ⟨?_, h5⟩
        intro y hy
        exact h4 y (by simpa using hy)
      · simp only [List.map_cons, List.sum_cons, h6]
        omega
    · -- the last command carries what is left
      have hk : k = 0 := by
        by_contra hk
        have : M ≤ k * M := Nat.le_mul_of_pos_left M (by omega)
        omega
      subst hk
      simp only [if_neg hbig] at hret
      simp only [sg_unmap_loop, if_neg hbig, hret, ne_eq, not_true_eq_false, if_false]
      refine ⟨trivial, rfl, ?_, ?_, by simp, by simp⟩
      · intro c hc
        simp only [List.mem_singleton] at hc
        subst hc
        simp only
        omega
      · intro c hc
        simp only [List.head?_cons, Option.some.injEq] at hc
        subst hc
        rfl


/-! ## Lemmas on the checks of `main`, on failing commands, on the codecs and on the probe -/

/-- The checks of `main` once unmap support and a non-zero sector size are
established. -/
theorem plan_eq (info : device_info) (offset length step : Nat)
    (hu : info.support_unmap = true) (hs : info.sector_size ≠ 0) :
    plan info offset length step =
      if offset % info.sector_size ≠ 0 then .offset_not_aligned
      else if offset > info.device_size then .offset_beyond_device
      else if (if step > 0 then step
          else (compute_end_offset info.device_size offset length + 2 ^ 64 - offset) % 2 ^ 64)
          % info.sector_size ≠ 0 then .length_not_aligned
      else .accepted offset (compute_end_offset info.device_size offset length)
        (if step > 0 then step
          else (compute_end_offset info.device_size offset length + 2 ^ 64 - offset) % 2 ^ 64) := by
  unfold plan
  rw [hu]
  simp only [Bool.not_true, Bool.false_eq_true, if_false, if_neg hs]

/-- One round of the loop of `sg_unmap`. -/
theorem sg_unmap_loop_succ {σ : Type} (ioctl : sg_ioctl σ) (M n : Nat) (fd : σ)
    (offset_lba length_lba : Nat) :
    sg_unmap_loop ioctl M (n + 1) fd offset_lba length_lba =
      if (sg_unmap_scsi ioctl fd offset_lba (if length_lba > M then M else length_lba)).1 ≠ 0 then
        { ret := (sg_unmap_scsi ioctl fd offset_lba (if length_lba > M then M else length_lba)).1,
          fd := (sg_unmap_scsi ioctl fd offset_lba (if length_lba > M then M else length_lba)).2,
          issued := [(offset_lba, if length_lba > M then M else length_lba)] }
      else
        { sg_unmap_loop ioctl M n
            (sg_unmap_scsi ioctl fd offset_lba (if length_lba > M then M else length_lba)).2
            (if length_lba > M then (offset_lba + M) % 2 ^ 64 else offset_lba)
            (if length_lba > M then length_lba - M else length_lba) with
          issued := (offset_lba, if length_lba > M then M else length_lba) ::
            (sg_unmap_loop ioctl M n
              (sg_unmap_scsi ioctl fd offset_lba (if length_lba > M then M else length_lba)).2
              (if length_lba > M then (offset_lba + M) % 2 ^ 64 else offset_lba)
              (if length_lba > M then length_lba - M else length_lba)).issued } := by
  simp only [sg_unmap_loop]

theorem unmap_sequence_zero (M offset_lba length_lba : Nat) :
    unmap_sequence M 0 offset_lba length_lba = [] := rfl

theorem unmap_sequence_succ (M n offset_lba length_lba : Nat) :
    unmap_sequence M (n + 1) offset_lba length_lba =
      (offset_lba, if length_lba > M then M else length_lba) ::
        unmap_sequence M n (if length_lba > M then (offset_lba + M) % 2 ^ 64 else offset_lba)
          (if length_lba > M then length_lba - M else length_lba) := by
  simp [unmap_sequence, sg_unmap_loop_succ, sg_unmap_scsi, accepting_device]

/-- When the command of index `k` is the first that the transport rejects,
the loop of `sg_unmap` returns its status after issuing the commands of index
0 to `k` and no other. -/
theorem sg_unmap_loop_first_failure {σ : Type} (ioctl : sg_ioctl σ) (M n : Nat) :
    ∀ (fd : σ) (offset_lba length_lba k : Nat),
      k < (unmap_sequence M n offset_lba length_lba).length →
      (∀ j, j < k → nth_status ioctl fd (unmap_sequence M n offset_lba length_lba) j = 0) →
      nth_status ioctl fd (unmap_sequence M n offset_lba length_lba) k ≠ 0 →
      (sg_unmap_loop ioctl M n fd offset_lba length_lba).ret
          = nth_status ioctl fd (unmap_sequence M n offset_lba length_lba) k
      ∧ (sg_unmap_loop ioctl M n fd offset_lba length_lba).issued
          = (unmap_sequence M n offset_lba length_lba).take (k + 1) := by
  induction n with
  | zero =>
    intro fd off len k hk
    simp [unmap_sequence_zero] at hk
  | succ n ih =>
    intro fd off len k hk hbefore hfail
    rw [unmap_sequence_succ] at hk hbefore hfail ⊢
    rw [sg_unmap_loop_succ]
    cases k with
    | zero =>
      simp only [nth_status] at hfail
      rw [if_pos hfail]
      simp [nth_status]
    | succ k =>
      have h0 := hbefore 0 (by omega)
      simp only [nth_status] at h0
      rw [if_neg (not_not.mpr h0)]
      simp only [nth_status] at hfail
      have hk2 : k < (unmap_sequence M n (if len > M then (off + M) % 2 ^ 64 else off)
          (if len > M then len - M else len)).length := by
        simpa using hk
      have hb2 : ∀ j, j < k → nth_status ioctl
          (sg_unmap_scsi ioctl fd off (if len > M then M else len)).2
          (unmap_sequence M n (if len > M then (off + M) % 2 ^ 64 else off)
            (if len > M then len - M else len)) j = 0 := by
        intro j hj
        have := hbefore (j + 1) (by omega)
        simpa [nth_status] using this
      obtain ⟨h1, h2⟩ := ih _ _ _ k hk2 hb2 hfail
      simp only [nth_status, List.take_succ_cons]
      exact ⟨h1, by rw [h2]⟩

/-- The loop of `sg_unmap` returns 0 exactly when the transport accepts every
command of the split sequence, and it has then issued the whole sequence. -/
theorem sg_unmap_loop_ret_zero {σ : Type} (ioctl : sg_ioctl σ) (M n : Nat) :
    ∀ (fd : σ) (offset_lba length_lba : Nat),
      ((sg_unmap_loop ioctl M n fd offset_lba length_lba).ret = 0 ↔
        ∀ j, j < (unmap_sequence M n offset_lba length_lba).length →
          nth_status ioctl fd (unmap_sequence M n offset_lba length_lba) j = 0)
      ∧ ((sg_unmap_loop ioctl M n fd offset_lba length_lba).ret = 0 →
          (sg_unmap_loop ioctl M n fd offset_lba length_lba).issued
            = unmap_sequence M n offset_lba length_lba) := by
  induction n with
  | zero =>
    intro fd off len
    simp [unmap_sequence_zero, sg_unmap_loop]
  | succ n ih =>
    intro fd off len
    rw [unmap_sequence_succ, sg_unmap_loop_succ]
    by_cases h0 : (sg_unmap_scsi ioctl fd off (if len > M then M else len)).1 = 0
    · rw [if_neg (not_not.mpr h0)]
      obtain ⟨ih1, ih2⟩ := ih (sg_unmap_scsi ioctl fd off (if len > M then M else len)).2
        (if len > M then (off + M) % 2 ^ 64 else off) (if len > M then len - M else len)
      constructor
      · constructor
        · intro hr j hj
          cases j with
          | zero => simpa [nth_status] using h0
          | succ j =>
            simp only [nth_status]
            exact ih1.mp hr j (by simpa using hj)
        · intro hall
          apply ih1.mpr
          intro j hj
          have := hall (j + 1) (by simpa using hj)
          simpa [nth_status] using this
      · intro hr
        simp only
        rw [ih2 hr]
    · rw [if_pos h0]
      constructor
      · constructor
        · intro hr
          exact absurd hr h0
        · intro hall
          have := hall 0 (by simp)
          simp only [nth_status] at this
          exact absurd this h0
      · intro hr
        exact absurd hr h0

/-- On a device that accepts every command `sg_unmap` returns 0, for a
non-zero sector size, a non-zero `maximum_unmap_lba_count` and a range that
ends below block `2^64`. -/
theorem sg_unmap_accepting {σ : Type} (ioctl : sg_ioctl σ) (fd : σ) (info : device_info)
    (offset length : Nat) (hs : info.sector_size ≠ 0) (hM : 1 ≤ info.maximum_unmap_lba_count)
    (hsum : offset / info.sector_size + length / info.sector_size < 2 ^ 64)
    (hok : ∀ fd hdr, (ioctl fd hdr).1 = 0) :
    ∃ r, sg_unmap ioctl fd info offset length = some r ∧ r.ret = 0 := by
  obtain ⟨-, hc2, hc3⟩ := block_descriptor_count_eq (length / info.sector_size)
    info.maximum_unmap_lba_count hM (Nat.lt_of_le_of_lt (Nat.le_add_left _ _) hsum)
  obtain ⟨h1, -⟩ := sg_unmap_loop_accepting ioctl info.maximum_unmap_lba_count
    hM hok _ fd (offset / info.sector_size) (length / info.sector_size) hsum hc2 hc3
  have hM0 : info.maximum_unmap_lba_count ≠ 0 := by omega
  exact ⟨_, by simp only [sg_unmap, if_neg hs, if_neg hM0], h1⟩

theorem shiftLeft_or_eq (a b i : Nat) (h : b < 2 ^ i) : a <<< i ||| b = a * 2 ^ i + b := by
  rw [Nat.shiftLeft_eq, Nat.mul_comm, ← Nat.mul_add_lt_is_or h]

theorem u16_to_big_endian_bytes_eq (v : Nat) :
    u16_to_big_endian_bytes v = [v / 2 ^ 8 % 2 ^ 8, v % 2 ^ 8] := by
  simp only [u16_to_big_endian_bytes, Nat.shiftRight_eq_div_pow]
  congr 1
  · omega
  · congr 1
    omega

theorem u32_to_big_endian_bytes_eq (v : Nat) :
    u32_to_big_endian_bytes v
      = [v / 2 ^ 24 % 2 ^ 8, v / 2 ^ 16 % 2 ^ 8, v / 2 ^ 8 % 2 ^ 8, v % 2 ^ 8] := by
  simp only [u32_to_big_endian_bytes, u16_to_big_endian_bytes_eq, Nat.shiftRight_eq_div_pow,
    List.cons_append, List.nil_append, List.cons.injEq, and_true]
  refine ⟨?_, ?_, ?_, ?_⟩ <;> omega

theorem u64_to_big_endian_bytes_eq (v : Nat) :
    u64_to_big_endian_bytes v
      = [v / 2 ^ 56 % 2 ^ 8, v / 2 ^ 48 % 2 ^ 8, v / 2 ^ 40 % 2 ^ 8, v / 2 ^ 32 % 2 ^ 8,
         v / 2 ^ 24 % 2 ^ 8, v / 2 ^ 16 % 2 ^ 8, v / 2 ^ 8 % 2 ^ 8, v % 2 ^ 8] := by
  simp only [u64_to_big_endian_bytes, u32_to_big_endian_bytes_eq, Nat.shiftRight_eq_div_pow,
    List.cons_append, List.nil_append, List.cons.injEq, and_true]
  refine ⟨?_, ?_, ?_, ?_, ?_, ?_, ?_, ?_⟩ <;> omega

theorem byte_at_lt (p : List Nat) (i : Nat) : byte_at p i < 2 ^ 8 := by
  unfold byte_at
  omega

theorem byte_at_drop (p : List Nat) (k i : Nat) : byte_at (p.drop k) i = byte_at p (k + i) := by
  simp [byte_at, List.getD_eq_getElem?_getD, List.getElem?_drop]

theorem u16_from_big_endian_bytes_eq (p : List Nat) :
    u16_from_big_endian_bytes p = byte_at p 0 * 2 ^ 8 + byte_at p 1 := by
  have h0 := byte_at_lt p 0
  have h1 := byte_at_lt p 1
  rw [u16_from_big_endian_bytes, shiftLeft_or_eq _ _ _ h1]
  omega

theorem u32_from_big_endian_bytes_eq (p : List Nat) :
    u32_from_big_endian_bytes p
      = byte_at p 0 * 2 ^ 24 + byte_at p 1 * 2 ^ 16 + byte_at p 2 * 2 ^ 8 + byte_at p 3 := by
  have h0 := byte_at_lt p 0
  have h1 := byte_at_lt p 1
  have h2 := byte_at_lt p 2
  have h3 := byte_at_lt p 3
  have hm : ((byte_at p 0 * 2 ^ 8 + byte_at p 1) <<< 16) % 2 ^ 32
      = (byte_at p 0 * 2 ^ 8 + byte_at p 1) <<< 16 := by
    rw [Nat.shiftLeft_eq]
    omega
  have e0 : byte_at (p.drop 2) 0 = byte_at p 2 := byte_at_drop p 2 0
  have e1 : byte_at (p.drop 2) 1 = byte_at p 3 := byte_at_drop p 2 1
  rw [u32_from_big_endian_bytes, u16_from_big_endian_bytes_eq, u16_from_big_endian_bytes_eq,
    e0, e1, hm, shiftLeft_or_eq _ _ _ (by omega)]
  omega

theorem u64_from_big_endian_bytes_eq (p : List Nat) :
    u64_from_big_endian_bytes p
      = byte_at p 0 * 2 ^ 56 + byte_at p 1 * 2 ^ 48 + byte_at p 2 * 2 ^ 40 + byte_at p 3 * 2 ^ 32
        + byte_at p 4 * 2 ^ 24 + byte_at p 5 * 2 ^ 16 + byte_at p 6 * 2 ^ 8 + byte_at p 7 := by
  have h0 := byte_at_lt p 0
  have h1 := byte_at_lt p 1
  have h2 := byte_at_lt p 2
  have h3 := byte_at_lt p 3
  have h4 := byte_at_lt p 4
  have h5 := byte_at_lt p 5
  have h6 := byte_at_lt p 6
  have h7 := byte_at_lt p 7
  have hm : ((byte_at p 0 * 2 ^ 24 + byte_at p 1 * 2 ^ 16 + byte_at p 2 * 2 ^ 8 + byte_at p 3)
        <<< 32) % 2 ^ 64
      = (byte_at p 0 * 2 ^ 24 + byte_at p 1 * 2 ^ 16 + byte_at p 2 * 2 ^ 8 + byte_at p 3)
        <<< 32 := by
    rw [Nat.shiftLeft_eq]
    omega
  have e0 : byte_at (p.drop 4) 0 = byte_at p 4 := byte_at_drop p 4 0
  have e1 : byte_at (p.drop 4) 1 = byte_at p 5 := byte_at_drop p 4 1
  have e2 : byte_at (p.drop 4) 2 = byte_at p 6 := byte_at_drop p 4 2
  have e3 : byte_at (p.drop 4) 3 = byte_at p 7 := byte_at_drop p 4 3
  rw [u64_from_big_endian_bytes, u32_from_big_endian_bytes_eq, u32_from_big_endian_bytes_eq,
    e0, e1, e2, e3, hm, shiftLeft_or_eq _ _ _ (by omega)]
  omega

/-- The four low bytes of a number, taken most significant first, make up
the number modulo `2^32`. -/
theorem four_bytes_value (w : Nat) :
    (w / 2 ^ 24 % 2 ^ 8) * 2 ^ 24 + (w / 2 ^ 16 % 2 ^ 8) * 2 ^ 16 + (w / 2 ^ 8 % 2 ^ 8) * 2 ^ 8
      + w % 2 ^ 8 = w % 2 ^ 32 := by
  omega

theorem u16_round_trip (v : Nat) (hv : v < 2 ^ 16) :
    u16_from_big_endian_bytes (u16_to_big_endian_bytes v) = v := by
  rw [u16_from_big_endian_bytes_eq, u16_to_big_endian_bytes_eq]
  simp only [byte_at, List.getD_cons_zero, List.getD_cons_succ]
  omega

theorem u32_round_trip (v : Nat) (hv : v < 2 ^ 32) :
    u32_from_big_endian_bytes (u32_to_big_endian_bytes v) = v := by
  rw [u32_from_big_endian_bytes_eq, u32_to_big_endian_bytes_eq]
  simp only [byte_at, List.getD_cons_zero, List.getD_cons_succ]
  omega

theorem u64_round_trip (v : Nat) (hv : v < 2 ^ 64) :
    u64_from_big_endian_bytes (u64_to_big_endian_bytes v) = v := by
  rw [u64_from_big_endian_bytes_eq, u64_to_big_endian_bytes_eq]
  simp only [byte_at, List.getD_cons_zero, List.getD_cons_succ]
  have hi := four_bytes_value (v / 2 ^ 32)
  have lo := four_bytes_value v
  have e56 : v / 2 ^ 32 / 2 ^ 24 = v / 2 ^ 56 := by
    rw [Nat.div_div_eq_div_mul, ← Nat.pow_add]
  have e48 : v / 2 ^ 32 / 2 ^ 16 = v / 2 ^ 48 := by
    rw [Nat.div_div_eq_div_mul, ← Nat.pow_add]
  have e40 : v / 2 ^ 32 / 2 ^ 8 = v / 2 ^ 40 := by
    rw [Nat.div_div_eq_div_mul, ← Nat.pow_add]
  rw [e56, e48, e40] at hi
  have hv2 : v = (v / 2 ^ 32 % 2 ^ 32) * 2 ^ 32 + v % 2 ^ 32 := by omega
  have m : ∀ x, x % 2 ^ 8 % 256 = x % 2 ^ 8 := fun x => by omega
  simp only [m]
  generalize v / 2 ^ 56 % 2 ^ 8 = b0 at hi ⊢
  generalize v / 2 ^ 48 % 2 ^ 8 = b1 at hi ⊢
  generalize v / 2 ^ 40 % 2 ^ 8 = b2 at hi ⊢
  generalize v / 2 ^ 32 % 2 ^ 8 = b3 at hi ⊢
  generalize v / 2 ^ 24 % 2 ^ 8 = b4 at lo ⊢
  generalize v / 2 ^ 16 % 2 ^ 8 = b5 at lo ⊢
  generalize v / 2 ^ 8 % 2 ^ 8 = b6 at lo ⊢
  generalize v % 2 ^ 8 = b7 at lo ⊢
  generalize v / 2 ^ 32 % 2 ^ 32 = H at hi hv2
  generalize v % 2 ^ 32 = L at lo hv2
  omega

theorem u16_to_big_endian_bytes_order (v : Nat) :
    u16_to_big_endian_bytes v = (List.range 2).map (big_endian_byte 2 v) := by
  rw [u16_to_big_endian_bytes_eq, show List.range 2 = [0, 1] from rfl]
  simp only [List.map, big_endian_byte]
  norm_num

theorem u32_to_big_endian_bytes_order (v : Nat) :
    u32_to_big_endian_bytes v = (List.range 4).map (big_endian_byte 4 v) := by
  rw [u32_to_big_endian_bytes_eq, show List.range 4 = [0, 1, 2, 3] from rfl]
  simp only [List.map, big_endian_byte]
  norm_num

theorem u64_to_big_endian_bytes_order (v : Nat) :
    u64_to_big_endian_bytes v = (List.range 8).map (big_endian_byte 8 v) := by
  rw [u64_to_big_endian_bytes_eq, show List.range 8 = [0, 1, 2, 3, 4, 5, 6, 7] from rfl]
  simp only [List.map, big_endian_byte]
  norm_num

theorem byte_at_of_bytes (p : List Nat) (hb : ∀ b ∈ p, b < 256) (i : Nat) :
    byte_at p i = p.getD i 0 := by
  unfold byte_at
  apply Nat.mod_eq_of_lt
  rw [List.getD_eq_getElem?_getD]
  by_cases hi : i < p.length
  · rw [List.getElem?_eq_getElem hi]
    exact hb _ (List.getElem_mem hi)
  · rw [List.getElem?_eq_none (by omega)]
    decide

theorem u32_from_eq_big_endian_at (p : List Nat) (hb : ∀ b ∈ p, b < 256) (k : Nat) :
    u32_from_big_endian_bytes (p.drop k) = big_endian_at p k 4 := by
  rw [u32_from_big_endian_bytes_eq, byte_at_drop, byte_at_drop, byte_at_drop, byte_at_drop,
    byte_at_of_bytes p hb, byte_at_of_bytes p hb, byte_at_of_bytes p hb, byte_at_of_bytes p hb]
  simp only [big_endian_at, show List.range 4 = [0, 1, 2, 3] from rfl, List.foldl]
  omega

theorem u64_from_eq_big_endian_at (p : List Nat) (hb : ∀ b ∈ p, b < 256) :
    u64_from_big_endian_bytes p = big_endian_at p 0 8 := by
  rw [u64_from_big_endian_bytes_eq]
  simp only [byte_at_of_bytes p hb, big_endian_at,
    show List.range 8 = [0, 1, 2, 3, 4, 5, 6, 7] from rfl, List.foldl, Nat.zero_add]
  omega

theorem u64_from_big_endian_bytes_lt (p : List Nat) : u64_from_big_endian_bytes p < 2 ^ 64 := by
  unfold u64_from_big_endian_bytes
  omega

/-- What `sg_get_device_info` returns when the transport accepts both
queries. -/
theorem sg_get_device_info_accepted {σ : Type} (ioctl : sg_ioctl σ) (fd fd1 fd2 : σ)
    (info : device_info) (capacity limits : List Nat)
    (h1 : ioctl fd sg_read_capacity16_hdr = (0, capacity, fd1))
    (h2 : ioctl fd1 sg_inquiry_limits_vdp_hdr = (0, limits, fd2)) :
    sg_get_device_info ioctl fd info =
      (0,
       { last_block_address := u64_from_big_endian_bytes capacity
         sector_size := u32_from_big_endian_bytes (capacity.drop 8)
         device_size :=
           ((u64_from_big_endian_bytes capacity + 1) % 2 ^ 64
             * u32_from_big_endian_bytes (capacity.drop 8)) % 2 ^ 64
         maximum_transfer_length := u32_from_big_endian_bytes (limits.drop 8)
         optimal_transfer_length := u32_from_big_endian_bytes (limits.drop 12)
         maximum_unmap_lba_count := u32_from_big_endian_bytes (limits.drop 20)
         maximum_unmap_block_descriptor_count := u32_from_big_endian_bytes (limits.drop 24)
         optimal_unmap_granularity := u32_from_big_endian_bytes (limits.drop 28)
         support_unmap := decide (u32_from_big_endian_bytes (limits.drop 20) ≠ 0) },
       fd2) := by
  simp [sg_get_device_info, sg_read_capacity16, sg_inquiry_limits_vdp, h1, h2]

/-! ## Lemmas on the fractional part of `parse_size` -/

/-- The loop of `parse_size` over the fractional digits adds, modulo `2^64`,
the amount `frac_added` to `x`. -/
theorem frac_accumulate_eq (frac_base frac_div : Nat) (fuel : Nat) :
    ∀ (frac frac_poz x : Nat), x < 2 ^ 64 →
      frac_accumulate frac_base frac_div fuel frac frac_poz x
        = (x + frac_added frac_base frac_div fuel frac frac_poz) % 2 ^ 64 := by
  induction fuel with
  | zero =>
    intro frac poz x hx
    simp only [frac_accumulate, frac_added, Nat.add_zero]
    exact (Nat.mod_eq_of_lt hx).symm
  | succ n ih =>
    intro frac poz x hx
    simp only [frac_accumulate, frac_added]
    by_cases hc : frac % 10 ≠ 0 ∧ frac_div / poz / (frac % 10) ≠ 0
    · simp only [if_pos hc]
      by_cases hf : frac / 10 ≠ 0
      · rw [if_pos hf, if_pos hf, ih _ _ _ (Nat.mod_lt _ (by decide))]
        rw [Nat.add_mod, Nat.mod_mod, ← Nat.add_mod, Nat.add_assoc]
      · rw [if_neg hf, if_neg hf]
    · simp only [if_neg hc]
      by_cases hf : frac / 10 ≠ 0
      · rw [if_pos hf, if_pos hf, ih _ _ _ hx, Nat.zero_add]
      · rw [if_neg hf, if_neg hf, Nat.add_zero]
        exact (Nat.mod_eq_of_lt hx).symm

/-- Below a power of ten: when `frac < 10^j` and the divisor of the current
digit is `10^j`, nine times the amount added stays within ten times the unit,
with room for ten times the `10^j`-th part of the unit. -/
theorem frac_added_below (frac_base frac_div : Nat) (fuel : Nat) :
    ∀ (j frac frac_poz : Nat), frac_div / frac_poz = 10 ^ j → frac < 10 ^ j →
      frac * frac_poz < 2 ^ 64 →
      9 * frac_added frac_base frac_div fuel frac frac_poz + 10 * (frac_base / 10 ^ j)
        ≤ 10 * frac_base := by
  induction fuel with
  | zero =>
    intro j frac poz _ _ _
    have := Nat.div_le_self frac_base (10 ^ j)
    simp only [frac_added]
    omega
  | succ n ih =>
    intro j frac poz hS hlt hprod
    cases j with
    | zero =>
      have hf : frac = 0 := by simpa using hlt
      subst hf
      have := Nat.div_le_self frac_base (10 ^ 0)
      simp [frac_added]
    | succ j =>
      have hpos : 0 < 10 ^ j := Nat.pow_pos (by decide)
      have hS10 : frac_div / poz / 10 = 10 ^ j := by
        rw [hS, Nat.pow_succ, Nat.mul_div_cancel _ (by decide)]
      have hu : frac_base / 10 ^ (j + 1) = frac_base / 10 ^ j / 10 := by
        rw [Nat.pow_succ, Nat.div_div_eq_div_mul]
      have hule : frac_base / 10 ^ j ≤ frac_base := Nat.div_le_self _ _
      have hadded : (if frac % 10 ≠ 0 ∧ frac_div / poz / (frac % 10) ≠ 0
          then frac_base / (frac_div / poz / (frac % 10)) else 0) ≤ frac_base / 10 ^ j := by
        split
        · rename_i hc
          have hseg : frac % 10 ≤ 10 := by omega
          have h1 : frac_div / poz / 10 ≤ frac_div / poz / (frac % 10) :=
            Nat.div_le_div_left hseg (by omega)
          rw [hS10] at h1
          exact Nat.div_le_div_left h1 hpos
        · exact Nat.zero_le _
      have hf1 : frac / 10 < 10 ^ j := by
        apply Nat.div_lt_of_lt_mul
        rw [Nat.pow_succ, Nat.mul_comm] at hlt
        exact hlt
      simp only [frac_added]
      generalize (if frac % 10 ≠ 0 ∧ frac_div / poz / (frac % 10) ≠ 0
          then frac_base / (frac_div / poz / (frac % 10)) else 0) = added at hadded ⊢
      rw [hu]
      by_cases hf : frac / 10 ≠ 0
      · rw [if_pos hf]
        have hge : 10 ≤ frac := by omega
        have hpoz : poz * 10 < 2 ^ 64 := by
          have : 10 * poz ≤ frac * poz := Nat.mul_le_mul_right _ hge
          omega
        have hprod2 : frac / 10 * (poz * 10) < 2 ^ 64 := by
          have h10 : frac / 10 * 10 ≤ frac := Nat.div_mul_le_self _ _
          have : frac / 10 * (poz * 10) = frac / 10 * 10 * poz := by ring
          have : frac / 10 * 10 * poz ≤ frac * poz := Nat.mul_le_mul_right _ h10
          omega
        have hS2 : frac_div / (poz * 10 % 2 ^ 64) = 10 ^ j := by
          rw [Nat.mod_eq_of_lt hpoz, ← Nat.div_div_eq_div_mul, hS10]
        have hI := ih j (frac / 10) (poz * 10 % 2 ^ 64) hS2 hf1
          (by rw [Nat.mod_eq_of_lt hpoz]; exact hprod2)
        generalize frac_added frac_base frac_div n (frac / 10) (poz * 10 % 2 ^ 64) = rest at hI ⊢
        generalize frac_base / 10 ^ j = u at *
        omega
      · rw [if_neg hf]
        generalize frac_base / 10 ^ j = u at *
        omega

/-- At a power of ten: when `frac = 10^j` and the divisor of the current digit
is `10^j`, only the leading 1 adds something, at most one unit. -/
theorem frac_added_at (frac_base frac_div : Nat) (fuel : Nat) :
    ∀ (j frac frac_poz : Nat), frac_div / frac_poz = 10 ^ j → frac = 10 ^ j →
      frac * frac_poz < 2 ^ 64 →
      frac_added frac_base frac_div fuel frac frac_poz ≤ frac_base := by
  induction fuel with
  | zero =>
    intro j frac poz _ _ _
    simp [frac_added]
  | succ n ih =>
    intro j frac poz hS he hprod
    cases j with
    | zero =>
      have hf : frac = 1 := by simpa using he
      subst hf
      simp only [frac_added]
      rw [if_neg (by decide)]
      split
      · exact Nat.div_le_self _ _
      · exact Nat.zero_le _
    | succ j =>
      have hpos : 0 < 10 ^ j := Nat.pow_pos (by decide)
      have hseg : frac % 10 = 0 := by
        rw [he, Nat.pow_succ]
        exact Nat.mul_mod_left _ _
      have hf1 : frac / 10 = 10 ^ j := by
        rw [he, Nat.pow_succ, Nat.mul_div_cancel _ (by decide)]
      have hS10 : frac_div / poz / 10 = 10 ^ j := by
        rw [hS, Nat.pow_succ, Nat.mul_div_cancel _ (by decide)]
      have hge : 10 ≤ frac := by
        rw [he, Nat.pow_succ]
        omega
      have hpoz : poz * 10 < 2 ^ 64 := by
        have : 10 * poz ≤ frac * poz := Nat.mul_le_mul_right _ hge
        omega
      have hprod2 : frac / 10 * (poz * 10) < 2 ^ 64 := by
        have h10 : frac / 10 * 10 ≤ frac := Nat.div_mul_le_self _ _
        have : frac / 10 * (poz * 10) = frac / 10 * 10 * poz := by ring
        have : frac / 10 * 10 * poz ≤ frac * poz := Nat.mul_le_mul_right _ h10
        omega
      have hS2 : frac_div / (poz * 10 % 2 ^ 64) = 10 ^ j := by
        rw [Nat.mod_eq_of_lt hpoz, ← Nat.div_div_eq_div_mul, hS10]
      have hI := ih j (frac / 10) (poz * 10 % 2 ^ 64) hS2 hf1
        (by rw [Nat.mod_eq_of_lt hpoz]; exact hprod2)
      have hne : frac / 10 ≠ 0 := by omega
      simp only [frac_added, hseg, ne_eq, not_true_eq_false, false_and, if_false, if_pos hne,
        Nat.zero_add]
      exact hI

/-- The amount added for the fractional digits is less than two units, when
`frac` is at most the power of ten `frac_div`. -/
theorem frac_added_lt_two_units (frac_base frac_div fuel frac m : Nat)
    (hB : 1 ≤ frac_base) (hD : frac_div = 10 ^ m) (hf : frac ≤ frac_div) (hf64 : frac < 2 ^ 64) :
    frac_added frac_base frac_div fuel frac 1 < 2 * frac_base := by
  have hS : frac_div / 1 = 10 ^ m := by rw [Nat.div_one, hD]
  rcases Nat.lt_or_ge frac (10 ^ m) with hlt | hge
  · have h := frac_added_below frac_base frac_div fuel m frac 1 hS hlt (by omega)
    omega
  · have he : frac = 10 ^ m := by omega
    have h := frac_added_at frac_base frac_div fuel m frac 1 hS he (by omega)
    omega

theorem ten_pow_le_cap_iff (e : Nat) : 10 ^ e ≤ UINT64_MAX / 10 ↔ e ≤ 18 := by
  constructor
  · intro h
    by_contra hn
    have h19 : 10 ^ 19 ≤ 10 ^ e := Nat.pow_le_pow_right (by decide) (by omega)
    have : ¬ 10 ^ 19 ≤ UINT64_MAX / 10 := by decide
    omega
  · intro h
    have h18 : 10 ^ e ≤ 10 ^ 18 := Nat.pow_le_pow_right (by decide) h
    have : 10 ^ 18 ≤ UINT64_MAX / 10 := by decide
    omega

/-- The loop `while (frac_div < frac)` ends within its fuel with `frac_div` a
power of ten and `frac` at most `frac_div`. -/
theorem frac_reduce_spec (fuel : Nat) :
    ∀ (e frac : Nat), 1 ≤ e → e ≤ 19 → frac < 2 ^ 64 → 21 - e ≤ fuel →
      ∃ m, (frac_reduce fuel (10 ^ e) frac).1 = 10 ^ m
        ∧ (frac_reduce fuel (10 ^ e) frac).2 ≤ 10 ^ m
        ∧ (frac_reduce fuel (10 ^ e) frac).2 < 2 ^ 64 := by
  induction fuel with
  | zero =>
    intro e frac _ he _ hfuel
    omega
  | succ n ih =>
    intro e frac h1 he hf hfuel
    rw [frac_reduce]
    by_cases hlt : 10 ^ e < frac
    · rw [if_pos hlt]
      by_cases hcap : 10 ^ e ≤ UINT64_MAX / 10
      · rw [if_pos hcap]
        have h18 := (ten_pow_le_cap_iff e).mp hcap
        have := ih (e + 1) frac (by omega) (by omega) hf (by omega)
        rw [Nat.pow_succ] at this
        exact this
      · rw [if_neg hcap]
        have h19 : e = 19 := by
          by_contra hne
          exact hcap ((ten_pow_le_cap_iff e).mpr (by omega))
        subst h19
        have hsmall : ¬ 10 ^ 19 < frac / 10 := by
          have : (10 : Nat) ^ 19 = 10000000000000000000 := by norm_num
          omega
        cases n with
        | zero => omega
        | succ k =>
          rw [frac_reduce, if_neg hsmall]
          exact ⟨19, rfl, by omega, by omega⟩
    · rw [if_neg hlt]
      exact ⟨e, rfl, by omega, hf⟩

/-- The loop over the leading zeros keeps `frac_div` a power of ten and `frac`
at most `frac_div`. -/
theorem frac_shift_spec (zeros : Nat) :
    ∀ (m frac : Nat), frac ≤ 10 ^ m → frac < 2 ^ 64 →
      ∃ m2, (frac_shift zeros (10 ^ m) frac).1 = 10 ^ m2
        ∧ (frac_shift zeros (10 ^ m) frac).2 ≤ 10 ^ m2
        ∧ (frac_shift zeros (10 ^ m) frac).2 < 2 ^ 64 := by
  induction zeros with
  | zero =>
    intro m frac h h64
    exact ⟨m, rfl, h, h64⟩
  | succ z ih =>
    intro m frac h h64
    rw [frac_shift]
    split
    · have h2 : frac ≤ 10 ^ (m + 1) := by
        have : 10 ^ m ≤ 10 ^ (m + 1) := Nat.pow_le_pow_right (by decide) (by omega)
        omega
      have := ih (m + 1) frac h2 h64
      rw [Nat.pow_succ] at this
      exact this
    · exact ih m (frac / 10) (by omega) (by omega)

theorem do_scale_by_power_snd_bounds (base : Nat) (hb : 0 < base) (power : Nat) :
    ∀ x, 1 ≤ x →
      1 ≤ (do_scale_by_power x base power).2
      ∧ (do_scale_by_power x base power).2 ≤ x * base ^ power := by
  induction power with
  | zero =>
    intro x hx
    simp [do_scale_by_power, hx]
  | succ k ih =>
    intro x hx
    rw [do_scale_by_power]
    have hk : 0 < base ^ (k + 1) := Nat.pow_pos hb
    split
    · exact ⟨hx, Nat.le_mul_of_pos_right _ hk⟩
    · have hx2 : 1 ≤ x * base := Nat.mul_pos hx hb
      obtain ⟨h1, h2⟩ := ih (x * base) hx2
      refine ⟨h1, ?_⟩
      have e : x * base ^ (k + 1) = x * base * base ^ k := by ring
      rw [e]
      exact h2

/-- When the scaling step of `parse_size` returns 0, the scaled integer part
fits in 64 bits and the stored result is that product plus an amount below two
scaled units, reduced modulo `2^64`. -/
theorem parse_size_scale_success (X : Char) (k base x frac frac_zeros r : Nat) (hb : 0 < base)
    (hk : suffix_power X = some k) (hx : x ≤ UINT64_MAX) (hfrac : frac < 2 ^ 64)
    (h : parse_size_scale X base x frac frac_zeros = .returned 0 r) :
    x * base ^ k ≤ UINT64_MAX
    ∧ ∃ added, added < 2 * base ^ k ∧ r = (x * base ^ k + added) % 2 ^ 64 := by
  have hpow : 0 < base ^ k := Nat.pow_pos hb
  by_cases hfit : x * base ^ k ≤ UINT64_MAX
  · refine ⟨hfit, ?_⟩
    have hx64 : x * base ^ k < 2 ^ 64 := by
      have : UINT64_MAX = 2 ^ 64 - 1 := rfl
      omega
    simp only [parse_size_scale, hk, do_scale_by_power_ok base hb k x hfit] at h
    by_cases hc : frac ≠ 0 ∧ k ≠ 0
    · rw [if_pos hc] at h
      obtain ⟨hB1, hB2⟩ := do_scale_by_power_snd_bounds base hb k 1 (le_refl 1)
      rw [Nat.one_mul] at hB2
      obtain ⟨m1, hr1, hr2, hr3⟩ := frac_reduce_spec 64 1 frac (le_refl 1) (by decide) hfrac
        (by decide)
      rw [Nat.pow_one] at hr1 hr2 hr3
      generalize frac_reduce 64 10 frac = red at hr1 hr2 hr3 h
      obtain ⟨d1, f1⟩ := red
      simp only at hr1 hr2 hr3 h
      subst hr1
      obtain ⟨m2, hs1, hs2, hs3⟩ := frac_shift_spec frac_zeros m1 f1 hr2 hr3
      generalize frac_shift frac_zeros (10 ^ m1) f1 = sh at hs1 hs2 hs3 h
      obtain ⟨d2, f2⟩ := sh
      simp only at hs1 hs2 hs3 h
      have hlt := frac_added_lt_two_units (do_scale_by_power 1 base k).2 d2 20 f2 m2 hB1 hs1
        (by rw [hs1]; exact hs2) hs3
      rw [frac_accumulate_eq _ _ _ _ _ _ hx64] at h
      injection h with _ h2
      exact ⟨_, by omega, h2.symm⟩
    · rw [if_neg hc] at h
      injection h with _ h2
      exact ⟨0, by omega, by rw [Nat.add_zero, Nat.mod_eq_of_lt hx64]; exact h2.symm⟩
  · exfalso
    have hrc := do_scale_by_power_overflow base hb k x hx (by omega)
    simp only [parse_size_scale, hk] at h
    generalize do_scale_by_power x base k = sc at hrc h
    obtain ⟨rc, x1⟩ := sc
    simp only at hrc h
    subst hrc
    split at h <;> simp [ERANGE] at h

/-- On an input with a fractional part and a recognised suffix, read in the C
locale: a decimal numeral `ds` (the digit 0 alone, or digits not starting with
0) of value `n`, a point, fractional digits `fs`, the suffix letter `X` at
position `i + 1` of K,M,G,T,P,E,Z,Y in either case, and an ending that selects
the base `b`.  If `parse_size` returns 0 with result `r`, then `n * b^(i+1)`
passed the check of `do_scale_by_power`, and the unchecked `x +=` of the
fractional step added less than two scaled units to it in 64-bit arithmetic;
where `(n + 2) * b^(i+1) ≤ 2^64` that addition cannot wrap and
`n * b^(i+1) ≤ r < (n + 2) * b^(i+1)`. -/
theorem parse_size_fraction_bounds (ds fs tail : List Char) (i : Nat) (X : Char) (base r : Nat)
    (hne : ds ≠ []) (hd : ∀ c ∈ ds, isdigit c = true) (h0 : ds.head? ≠ some '0' ∨ ds = ['0'])
    (hfs : ∀ c ∈ fs, isdigit c = true)
    (hX : "KMGTPEZY".toList[i]? = some X ∨ "kmgtpezy".toList[i]? = some X)
    (htail : (base = 1024 ∧ (tail = [] ∨ tail = ['i', 'B'] ∨ tail = ['i', 'b']))
      ∨ (base = 1000 ∧ (tail = ['B'] ∨ tail = ['b'])))
    (hsucc : parse_size c_locale (ds ++ ('.' :: fs ++ X :: tail)) = .returned 0 r) :
    numeral_value ds * base ^ (i + 1) ≤ UINT64_MAX
    ∧ (∃ added, added < 2 * base ^ (i + 1)
        ∧ r = (numeral_value ds * base ^ (i + 1) + added) % 2 ^ 64)
    ∧ ((numeral_value ds + 2) * base ^ (i + 1) ≤ 2 ^ 64 →
        numeral_value ds * base ^ (i + 1) ≤ r
        ∧ r < (numeral_value ds + 2) * base ^ (i + 1)) := by
  obtain ⟨hk, -⟩ := suffix_power_of_letter i X hX
  have hb : 0 < base := by
    rcases htail with ⟨rfl, -⟩ | ⟨rfl, -⟩ <;> decide
  have hr : ∀ c, ('.' :: fs ++ X :: tail).head? = some c →
      isdigit c = false ∧ c ≠ 'x' ∧ c ≠ 'X' := by
    intro c hc
    simp only [List.cons_append, List.head?_cons, Option.some.injEq] at hc
    subst hc
    decide
  rw [parse_size_decimal c_locale ds _ hne hd h0 hr] at hsucc
  by_cases hn : UINT64_MAX < numeral_value ds
  · rw [if_pos hn] at hsucc
    simp [ERANGE] at hsucc
  · rw [if_neg hn] at hsucc
    simp only [List.cons_append, List.isEmpty_cons, Bool.false_eq_true, if_false,
      List.length_cons, List.length_append] at hsucc
    rw [check_suffix_fraction _ fs i X tail _ _ hfs hX] at hsucc
    have e : fs.length + (tail.length + 1) + 1 = (fs.length + tail.length + 1) + 1 := by omega
    rw [e] at hsucc
    have hscale : ∃ fr fz, fr < 2 ^ 64
        ∧ parse_size_scale X base (numeral_value ds) fr fz = .returned 0 r := by
      split at hsucc
      · rw [check_suffix_recognised c_locale _ X tail base _ _ _ htail] at hsucc
        exact ⟨0, _, by decide, hsucc⟩
      · split at hsucc
        · simp [ERANGE] at hsucc
        · rename_i hfit
          rw [check_suffix_recognised c_locale _ X tail base _ _ _ htail] at hsucc
          have hmax : UINT64_MAX = 2 ^ 64 - 1 := rfl
          exact ⟨_, _, by omega, hsucc⟩
    obtain ⟨fr, fz, hfr, hsc⟩ := hscale
    obtain ⟨hfit, added, ha, hra⟩ :=
      parse_size_scale_success X (i + 1) base _ fr fz r hb hk (by omega) hfr hsc
    refine ⟨hfit, ⟨added, ha, hra⟩, ?_⟩
    intro hroom
    have e2 : (numeral_value ds + 2) * base ^ (i + 1)
        = numeral_value ds * base ^ (i + 1) + 2 * base ^ (i + 1) := by ring
    rw [e2] at hroom ⊢
    generalize numeral_value ds * base ^ (i + 1) = nb at *
    generalize base ^ (i + 1) = u at *
    rw [Nat.mod_eq_of_lt (by omega)] at hra
    omega

/-! ## The claims -/

/-- The first range that the discard loop hands to `sg_unmap`, whatever the
device answers. -/
theorem discard_loop_first_range {σ : Type} (ioctl : sg_ioctl σ) (info : device_info)
    (end_offset fuel : Nat) (fd : σ) (offset length : Nat) (h : offset < end_offset) :
    (discard_loop ioctl info end_offset (fuel + 1) fd offset length).ranges.head? =
      some (offset, if (offset + length) % 2 ^ 64 > end_offset
        then (end_offset + 2 ^ 64 - offset) % 2 ^ 64 else length) := by
  simp only [discard_loop, if_pos h]
  split
  · rfl
  · split <;> rfl

/-- C1, at a failing input: on a 1 TiB device with 512-byte sectors the request
offset 512, length 1024, step 2^64 - 512 passes every check of `main` with
`end_offset = 1536`, and whatever the device answers the first range handed to
`sg_unmap` is `(512, 2^64 - 512)`: it is longer than the 1024 bytes asked for
and ends at `2^64`, far past `end_offset`, because `offset + length` wrapped
to 0 in the test that should have cut the range. -/
theorem discard_loop_range_past_end_offset {σ : Type} (ioctl : sg_ioctl σ) (fd : σ)
    (fuel : Nat) :
    plan tebibyte_device 512 1024 (2 ^ 64 - 512) = .accepted 512 1536 (2 ^ 64 - 512)
    ∧ (discard_loop ioctl tebibyte_device 1536 (fuel + 1) fd 512 (2 ^ 64 - 512)).ranges.head?
        = some (512, 2 ^ 64 - 512)
    ∧ 1536 < 512 + (2 ^ 64 - 512) := by
  refine ⟨by rfl, ?_, by decide⟩
  rw [discard_loop_first_range ioctl tebibyte_device 1536 fuel fd 512 (2 ^ 64 - 512) (by decide)]
  rfl

/-- C3: for `offset ≤ device_size` and any 64-bit `length`, the `end_offset`
that `main` computes is the minimum of the unbounded sum `offset + length` and
`device_size`; it lies between `offset` and `device_size`, and a sum that
wraps around `2^64` gives `device_size`. -/
theorem compute_end_offset_eq_min (device_size offset length : Nat)
    (hd : device_size < 2 ^ 64) (hl : length < 2 ^ 64) (ho : offset ≤ device_size) :
    compute_end_offset device_size offset length = min (offset + length) device_size
    ∧ offset ≤ compute_end_offset device_size offset length
    ∧ compute_end_offset device_size offset length ≤ device_size
    ∧ (2 ^ 64 ≤ offset + length →
        compute_end_offset device_size offset length = device_size) := by
  have key : compute_end_offset device_size offset length = min (offset + length) device_size := by
    unfold compute_end_offset
    simp only []
    by_cases hs : offset + length < 2 ^ 64
    · rw [Nat.mod_eq_of_lt hs]
      split <;> omega
    · have hw : (offset + length) % 2 ^ 64 = offset + length - 2 ^ 64 := by omega
      rw [hw]
      split <;> omega
  rw [key]
  omega

/-- C3 at the default length `2^64 - 1` on a 1 TiB device: the sum wraps and
`end_offset` is the device size. -/
theorem compute_end_offset_eq_min_witness :
    compute_end_offset (2 ^ 40) 512 (2 ^ 64 - 1) = min (512 + (2 ^ 64 - 1)) (2 ^ 40)
    ∧ 512 ≤ compute_end_offset (2 ^ 40) 512 (2 ^ 64 - 1)
    ∧ compute_end_offset (2 ^ 40) 512 (2 ^ 64 - 1) ≤ 2 ^ 40
    ∧ (2 ^ 64 ≤ 512 + (2 ^ 64 - 1) → compute_end_offset (2 ^ 40) 512 (2 ^ 64 - 1) = 2 ^ 40) :=
  compute_end_offset_eq_min (2 ^ 40) 512 (2 ^ 64 - 1) (by decide) (by decide) (by decide)

/-- C4: for a decimal numeral `ds` (the digit 0 alone, or digits not starting
with 0) of value `n` and the suffix letter `X` at position `i + 1` of
K,M,G,T,P,E,Z,Y in either case, in any locale: when `n * 1024^(i+1)` fits in
64 bits, `parse_size` of the numeral followed by `X`, `XiB` or `Xib` returns 0
and stores `n * 1024^(i+1)`; when `n * 1000^(i+1)` fits, `parse_size` of the
numeral followed by `XB` or `Xb` returns 0 and stores `n * 1000^(i+1)`. -/
theorem parse_size_suffix (dp : Option (List Char)) (ds : List Char) (i : Nat) (X : Char)
    (hne : ds ≠ []) (hd : ∀ c ∈ ds, isdigit c = true) (h0 : ds.head? ≠ some '0' ∨ ds = ['0'])
    (hX : "KMGTPEZY".toList[i]? = some X ∨ "kmgtpezy".toList[i]? = some X) :
    (numeral_value ds * 1024 ^ (i + 1) ≤ UINT64_MAX →
      parse_size dp (ds ++ [X]) = .returned 0 (numeral_value ds * 1024 ^ (i + 1))
      ∧ parse_size dp (ds ++ [X, 'i', 'B']) = .returned 0 (numeral_value ds * 1024 ^ (i + 1))
      ∧ parse_size dp (ds ++ [X, 'i', 'b']) = .returned 0 (numeral_value ds * 1024 ^ (i + 1)))
    ∧ (numeral_value ds * 1000 ^ (i + 1) ≤ UINT64_MAX →
      parse_size dp (ds ++ [X, 'B']) = .returned 0 (numeral_value ds * 1000 ^ (i + 1))
      ∧ parse_size dp (ds ++ [X, 'b']) = .returned 0 (numeral_value ds * 1000 ^ (i + 1))) := by
  obtain ⟨hk, hXd, hx1, hx2, -⟩ := suffix_power_of_letter i X hX
  have hr : ∀ (t : List Char) (c : Char), (X :: t).head? = some c →
      isdigit c = false ∧ c ≠ 'x' ∧ c ≠ 'X' := by
    intro t c hc
    simp only [List.head?_cons, Option.some.injEq] at hc
    subst hc
    exact ⟨hXd, hx1, hx2⟩
  have key : ∀ (base : Nat), 0 < base → numeral_value ds * base ^ (i + 1) ≤ UINT64_MAX →
      ¬ UINT64_MAX < numeral_value ds := by
    intro base hb h hlt
    have : numeral_value ds ≤ numeral_value ds * base ^ (i + 1) :=
      Nat.le_mul_of_pos_right _ (Nat.pow_pos hb)
    omega
  refine ⟨fun h => ⟨?_, ?_, ?_⟩, fun h => ⟨?_, ?_⟩⟩
  · rw [parse_size_decimal dp ds [X] hne hd h0 (hr []), if_neg (key 1024 (by decide) h)]
    simp only [List.isEmpty_cons, Bool.false_eq_true, if_false, List.length_cons]
    rw [check_suffix_letter, parse_size_scale_ok X (i + 1) 1024 _ _ (by decide) hk h]
  · rw [parse_size_decimal dp ds [X, 'i', 'B'] hne hd h0 (hr _), if_neg (key 1024 (by decide) h)]
    simp only [List.isEmpty_cons, Bool.false_eq_true, if_false, List.length_cons]
    rw [(check_suffix_letter_iB dp _ X _ 0 0).1, parse_size_scale_ok X (i + 1) 1024 _ _ (by decide) hk h]
  · rw [parse_size_decimal dp ds [X, 'i', 'b'] hne hd h0 (hr _), if_neg (key 1024 (by decide) h)]
    simp only [List.isEmpty_cons, Bool.false_eq_true, if_false, List.length_cons]
    rw [(check_suffix_letter_iB dp _ X _ 0 0).2, parse_size_scale_ok X (i + 1) 1024 _ _ (by decide) hk h]
  · rw [parse_size_decimal dp ds [X, 'B'] hne hd h0 (hr _), if_neg (key 1000 (by decide) h)]
    simp only [List.isEmpty_cons, Bool.false_eq_true, if_false, List.length_cons]
    rw [(check_suffix_letter_B dp _ X _ 0 0).1, parse_size_scale_ok X (i + 1) 1000 _ _ (by decide) hk h]
  · rw [parse_size_decimal dp ds [X, 'b'] hne hd h0 (hr _), if_neg (key 1000 (by decide) h)]
    simp only [List.isEmpty_cons, Bool.false_eq_true, if_false, List.length_cons]
    rw [(check_suffix_letter_B dp _ X _ 0 0).2, parse_size_scale_ok X (i + 1) 1000 _ _ (by decide) hk h]

/-- C4 on the numeral 10 and the letter K: the examples `10K`, `10KiB` and `10KB`
of the header. -/
theorem parse_size_suffix_witness :
    (parse_size c_locale "10K".toList = .returned 0 10240
      ∧ parse_size c_locale "10KiB".toList = .returned 0 10240
      ∧ parse_size c_locale "10Kib".toList = .returned 0 10240)
    ∧ (parse_size c_locale "10KB".toList = .returned 0 10000
      ∧ parse_size c_locale "10Kb".toList = .returned 0 10000) :=
  have h := parse_size_suffix c_locale "10".toList 0 'K' (by decide) (by decide) (by decide)
    (by decide)
  ⟨h.1 (by decide), h.2 (by decide)⟩

/-- C5, at the failing input: in the C locale `parse_size` of `"0.5MiB"`
returns 0 and stores 524288 (the unit is `1024^2` and the digit 5 adds
`1024^2 / (10 / 5)`), not the 512000 that the documentation of
`strtosize_or_err` in `utils.h` gives for this input. -/
theorem parse_size_half_MiB :
    parse_size c_locale "0.5MiB".toList = .returned 0 524288
    ∧ parse_size c_locale "0.5MiB".toList ≠ .returned 0 512000
    ∧ 1024 ^ 2 / (10 / 5) = 524288 := by
  decide

/-- C6 as stated fails: `parse_size` of `"0.25GiB"` does not store 268435456. -/
theorem parse_size_quarter_GiB_counterexample :
    parse_size c_locale "0.25GiB".toList ≠ .returned 0 268435456 := by
  decide

/-- C6, amended: in the C locale `parse_size` of `"0.25GiB"` returns 0 and
stores 268435455, one less than a quarter of `2^30`: the digits are added
from the last to the first, 5 as `2^30 / (100 / 5)` and 2 as `2^30 / (10 / 2)`,
and each quotient is rounded down. -/
theorem parse_size_quarter_GiB :
    parse_size c_locale "0.25GiB".toList = .returned 0 268435455
    ∧ 2 ^ 30 / (100 / 5) + 2 ^ 30 / (10 / 2) = 268435455 := by
  decide

/-- C7 as stated fails: `"010"` is a string of decimal digits that denotes
10, but `parse_size` reads it in base 8 and stores 8. -/
theorem parse_size_leading_zero_counterexample :
    (∀ c ∈ "010".toList, isdigit c = true)
    ∧ numeral_value "010".toList = 10
    ∧ parse_size c_locale "010".toList = .returned 0 8
    ∧ parse_size c_locale "010".toList ≠ .returned 0 (numeral_value "010".toList) := by
  decide

/-- C7, amended: for every non-empty string of decimal digits that is the
digit 0 alone or does not start with 0, and whose value is at most `2^64 - 1`,
`parse_size` returns 0 and stores the integer the numeral denotes, in any
locale. -/
theorem parse_size_plain_numeral (dp : Option (List Char)) (ds : List Char)
    (hne : ds ≠ []) (hd : ∀ c ∈ ds, isdigit c = true) (h0 : ds.head? ≠ some '0' ∨ ds = ['0'])
    (hv : numeral_value ds ≤ UINT64_MAX) :
    parse_size dp ds = .returned 0 (numeral_value ds) := by
  have h := parse_size_decimal dp ds [] hne hd h0 (by simp)
  rw [List.append_nil] at h
  rw [h, if_neg (by omega)]
  simp

/-- C7, amended, on the largest 64-bit value. -/
theorem parse_size_plain_numeral_witness :
    parse_size c_locale "18446744073709551615".toList = .returned 0 (2 ^ 64 - 1) :=
  parse_size_plain_numeral c_locale "18446744073709551615".toList (by decide) (by decide)
    (by decide) (by decide)

/-- C8: in any locale `parse_size` returns `-EINVAL` and leaves 0 in `*result`
for the empty string, for every string whose first character after leading
white space is `-`, and for every string that does not start with an integer
token (no digit after the white space and an optional sign). -/
theorem parse_size_invalid (dp : Option (List Char)) (s : List Char)
    (h : s = [] ∨ (s.dropWhile isspace).head? = some '-'
      ∨ starts_with_integer_token s = false) :
    parse_size dp s = .returned (-EINVAL) 0 := by
  unfold parse_size
  by_cases he : s.isEmpty = true
  · simp [he]
  · by_cases hm : ((s.dropWhile isspace).head? == some '-') = true
    · simp [he, hm]
    · rcases h with h | h | h
      · simp [h] at he
      · simp [h] at hm
      · rw [if_neg he, if_neg hm, strtoull_no_token s h]
        simp

/-- C8 on the empty string, on `-1`, on a minus sign after white space and on
`abcMB`. -/
theorem parse_size_invalid_witness :
    parse_size c_locale "".toList = .returned (-EINVAL) 0
    ∧ parse_size c_locale "-1".toList = .returned (-EINVAL) 0
    ∧ parse_size c_locale " \t-5K".toList = .returned (-EINVAL) 0
    ∧ parse_size c_locale "abcMB".toList = .returned (-EINVAL) 0 :=
  ⟨parse_size_invalid c_locale "".toList (Or.inl (by decide)),
   parse_size_invalid c_locale "-1".toList (Or.inr (Or.inl (by decide))),
   parse_size_invalid c_locale " \t-5K".toList (Or.inr (Or.inl (by decide))),
   parse_size_invalid c_locale "abcMB".toList (Or.inr (Or.inr (by decide)))⟩

/-- C9: take a decimal numeral `ds` (the digit 0 alone, or digits not starting
with 0) of value `n`, optionally a fractional part (in the C locale, a point
and digits `fs`), the suffix letter `X` at position `i + 1` of
K,M,G,T,P,E,Z,Y in either case, and an ending that selects the base `b`
(nothing, `iB`, `ib` for 1024; `B`, `b` for 1000).  Whenever `n` or
`n * b^(i+1)` exceeds `2^64 - 1`, `parse_size` returns `-ERANGE`, so it never
reports success with a wrapped value. -/
theorem parse_size_range_error (dp : Option (List Char)) (ds frac fs tail : List Char)
    (i : Nat) (X : Char) (base : Nat)
    (hne : ds ≠ []) (hd : ∀ c ∈ ds, isdigit c = true) (h0 : ds.head? ≠ some '0' ∨ ds = ['0'])
    (hfrac : frac = [] ∨ (dp = c_locale ∧ frac = '.' :: fs ∧ ∀ c ∈ fs, isdigit c = true))
    (hX : "KMGTPEZY".toList[i]? = some X ∨ "kmgtpezy".toList[i]? = some X)
    (htail : (base = 1024 ∧ (tail = [] ∨ tail = ['i', 'B'] ∨ tail = ['i', 'b']))
      ∨ (base = 1000 ∧ (tail = ['B'] ∨ tail = ['b'])))
    (hov : UINT64_MAX < numeral_value ds ∨ UINT64_MAX < numeral_value ds * base ^ (i + 1)) :
    ∃ result, parse_size dp (ds ++ (frac ++ X :: tail)) = .returned (-ERANGE) result := by
  obtain ⟨hk, hXd, hx1, hx2, -⟩ := suffix_power_of_letter i X hX
  have hb : 0 < base := by
    rcases htail with ⟨rfl, -⟩ | ⟨rfl, -⟩ <;> decide
  have hr : ∀ c, (frac ++ X :: tail).head? = some c → isdigit c = false ∧ c ≠ 'x' ∧ c ≠ 'X' := by
    intro c hc
    rcases hfrac with rfl | ⟨-, rfl, -⟩
    · simp only [List.nil_append, List.head?_cons, Option.some.injEq] at hc
      subst hc
      exact ⟨hXd, hx1, hx2⟩
    · simp only [List.cons_append, List.head?_cons, Option.some.injEq] at hc
      subst hc
      decide
  rw [parse_size_decimal dp ds _ hne hd h0 hr]
  by_cases hn : UINT64_MAX < numeral_value ds
  · exact ⟨0, by rw [if_pos hn]⟩
  · have hov2 : UINT64_MAX < numeral_value ds * base ^ (i + 1) := by
      rcases hov with h | h
      · exact absurd h hn
      · exact h
    have hscale : ∀ fr fz, ∃ result,
        parse_size_scale X base (numeral_value ds) fr fz = .returned (-ERANGE) result :=
      fun fr fz => parse_size_scale_overflow X (i + 1) base _ fr fz hb hk (by omega) hov2
    rw [if_neg hn]
    rcases hfrac with rfl | ⟨rfl, rfl, hfs⟩
    · simp only [List.nil_append, List.isEmpty_cons, Bool.false_eq_true, if_false,
        List.length_cons]
      rw [check_suffix_recognised dp _ X tail base _ _ _ htail]
      exact hscale 0 0
    · simp only [List.cons_append, List.isEmpty_cons, Bool.false_eq_true, if_false,
        List.length_cons, List.length_append]
      rw [check_suffix_fraction _ fs i X tail _ _ hfs hX]
      have e : fs.length + (tail.length + 1) + 1 = (fs.length + tail.length + 1) + 1 := by omega
      rw [e]
      split
      · rw [check_suffix_recognised c_locale _ X tail base _ _ _ htail]
        exact hscale _ _
      · split
        · exact ⟨0, rfl⟩
        · rw [check_suffix_recognised c_locale _ X tail base _ _ _ htail]
          exact hscale _ _

/-- C9 on `16E` (the product is `2^64`), on a numeral above `2^64 - 1`, and on an
input with a fractional part. -/
theorem parse_size_range_error_witness :
    (∃ result, parse_size c_locale "16E".toList = .returned (-ERANGE) result)
    ∧ (∃ result, parse_size c_locale "18446744073709551616KB".toList = .returned (-ERANGE) result)
    ∧ (∃ result, parse_size c_locale "16.05EiB".toList = .returned (-ERANGE) result) :=
  ⟨parse_size_range_error c_locale "16".toList [] [] [] 5 'E' 1024 (by decide) (by decide)
      (by decide) (Or.inl rfl) (by decide) (by decide) (Or.inr (by decide)),
   parse_size_range_error c_locale "18446744073709551616".toList [] [] ['B'] 0 'K' 1000
      (by decide) (by decide) (by decide) (Or.inl rfl) (by decide) (by decide)
      (Or.inl (by decide)),
   parse_size_range_error c_locale "16".toList ".05".toList "05".toList ['i', 'B'] 5 'E' 1024
      (by decide) (by decide) (by decide) (Or.inr ⟨rfl, rfl, by decide⟩) (by decide) (by decide)
      (Or.inr (by decide))⟩

/-- C10, at a failing input: on `"0.0"` (and likewise `"1.0"`) `parse_size` does
not return a failure: after the fractional zeros it jumps back to
`check_suffix` with `p` at the terminator and reads `*(p + 1)`, one byte past
the end of the string; `"1.5"` is rejected with `-EINVAL`. -/
theorem parse_size_bare_zero_fraction :
    parse_size c_locale "0.0".toList = .out_of_bounds
    ∧ parse_size c_locale "1.0".toList = .out_of_bounds
    ∧ parse_size c_locale "1.5".toList = .returned (-EINVAL) 0 := by
  decide

/-- C11: for a capability record with unmap support and a (non-zero) sector
size `s`, every offset that is not a multiple of `s` is rejected with the
offset-misalignment exit, whatever `length` and `step` are, and `main` issues
no unmap command. -/
theorem plan_offset_not_aligned {σ : Type} (ioctl : sg_ioctl σ) (info : device_info)
    (fuel : Nat) (fd : σ) (offset length step : Nat)
    (hu : info.support_unmap = true) (hs : info.sector_size ≠ 0)
    (ho : offset % info.sector_size ≠ 0) :
    plan info offset length step = .offset_not_aligned
    ∧ (main_after_probe ioctl info fuel fd offset length step).checks = .offset_not_aligned
    ∧ (main_after_probe ioctl info fuel fd offset length step).commands = [] := by
  have hp : plan info offset length step = .offset_not_aligned := by
    simp [plan, hu, hs, ho]
  refine ⟨hp, ?_, ?_⟩
  · simp [main_after_probe, hp]
  · simp [main_after_probe, hp, main_result.commands]

/-- C11 on a 1 TiB device with 512-byte sectors and offset 1000. -/
theorem plan_offset_not_aligned_witness :
    plan tebibyte_device 1000 4096 0 = .offset_not_aligned
    ∧ (main_after_probe accepting_device tebibyte_device 8 () 1000 4096 0).checks
        = .offset_not_aligned
    ∧ (main_after_probe accepting_device tebibyte_device 8 () 1000 4096 0).commands = [] :=
  plan_offset_not_aligned accepting_device tebibyte_device 8 () 1000 4096 0 (by decide)
    (by decide) (by decide)

/-- C12: for a capability record with unmap support and a non-zero sector
size, a sector-aligned offset and a sector-aligned chunk size (`step`, or
`end_offset - offset` when `step` is 0), the checks of `main` end with the
out-of-bounds exit exactly when `offset > device_size`; with
`offset = device_size` they pass with `end_offset = device_size`, the loop
ends at once, and no range and no unmap command is produced. -/
theorem plan_offset_bounds {σ : Type} (ioctl : sg_ioctl σ) (info : device_info)
    (fuel : Nat) (fd : σ) (offset length step : Nat)
    (hu : info.support_unmap = true) (hs : info.sector_size ≠ 0)
    (ho : offset % info.sector_size = 0)
    (hc : offset ≤ info.device_size →
      (if step > 0 then step
        else (compute_end_offset info.device_size offset length + 2 ^ 64 - offset) % 2 ^ 64)
        % info.sector_size = 0) :
    (plan info offset length step = .offset_beyond_device ↔ offset > info.device_size)
    ∧ (offset = info.device_size →
        (main_after_probe ioctl info fuel fd offset length step).checks
          = .accepted offset info.device_size (if step > 0 then step else 0)
        ∧ (main_after_probe ioctl info fuel fd offset length step).loop.map (fun l => l.status)
          = some .completed
        ∧ (main_after_probe ioctl info fuel fd offset length step).loop.map (fun l => l.ranges)
          = some []
        ∧ (main_after_probe ioctl info fuel fd offset length step).commands = []) := by
  have hpe := plan_eq info offset length step hu hs
  rw [if_neg (not_not.mpr ho)] at hpe
  constructor
  · constructor
    · intro h
      by_contra hn
      rw [hpe, if_neg hn, if_neg (not_not.mpr (hc (by omega)))] at h
      exact absurd h (by simp)
    · intro h
      rw [hpe, if_pos h]
  · intro he
    have hle : offset ≤ info.device_size := by omega
    have hend : compute_end_offset info.device_size offset length = info.device_size := by
      unfold compute_end_offset
      simp only []
      split
      · rfl
      · omega
    have hchunk : (if step > 0 then step
        else (compute_end_offset info.device_size offset length + 2 ^ 64 - offset) % 2 ^ 64)
        = (if step > 0 then step else 0) := by
      rw [hend]
      split
      · rfl
      · omega
    have hp : plan info offset length step
        = .accepted offset info.device_size (if step > 0 then step else 0) := by
      rw [hpe, if_neg (by omega), if_neg (not_not.mpr (hc hle)), hchunk, hend]
    have hloop : ∀ l, discard_loop ioctl info info.device_size fuel fd offset l
        = { status := .completed, fd := fd, ranges := [], commands := [] } := by
      intro l
      cases fuel with
      | zero => simp [discard_loop, he]
      | succ n => simp [discard_loop, he]
    simp [main_after_probe, hp, hloop, main_result.commands]

/-- C12 on a 1 TiB device: offset `2^40 + 512` is out of bounds, offset `2^40`
gives an empty plan. -/
theorem plan_offset_bounds_witness :
    (plan tebibyte_device (2 ^ 40 + 512) 4096 0 = .offset_beyond_device
        ↔ 2 ^ 40 + 512 > tebibyte_device.device_size)
    ∧ ((main_after_probe accepting_device tebibyte_device 8 () (2 ^ 40) 4096 0).checks
          = .accepted (2 ^ 40) (2 ^ 40) 0
        ∧ (main_after_probe accepting_device tebibyte_device 8 () (2 ^ 40) 4096 0).loop.map
            (fun l => l.status) = some .completed
        ∧ (main_after_probe accepting_device tebibyte_device 8 () (2 ^ 40) 4096 0).loop.map
            (fun l => l.ranges) = some []
        ∧ (main_after_probe accepting_device tebibyte_device 8 () (2 ^ 40) 4096 0).commands = []) :=
  ⟨(plan_offset_bounds accepting_device tebibyte_device 8 () (2 ^ 40 + 512) 4096 0 (by decide)
      (by decide) (by decide) (fun h => absurd h (by decide))).1,
   (plan_offset_bounds accepting_device tebibyte_device 8 () (2 ^ 40) 4096 0 (by decide)
      (by decide) (by decide) (fun _ => by decide)).2 rfl⟩

/-- C13, at a failing input: on a 1 TiB device with 512-byte sectors the
request offset 0, length 1000, step 512 passes every check of `main` (only the
step is tested for alignment) with `end_offset = 1000`, while the same length
without a step is rejected as not aligned; the loop then hands to `sg_unmap`
the ranges `(0, 512)` and `(512, 488)`.  The second length is no multiple of
512, `488 / 512` is 0 blocks, and the only command issued is one block at
block 0. -/
theorem discard_loop_unaligned_tail :
    plan tebibyte_device 0 1000 512 = .accepted 0 1000 512
    ∧ plan tebibyte_device 0 1000 0 = .length_not_aligned
    ∧ (discard_loop accepting_device tebibyte_device 1000 8 () 0 512).status = .completed
    ∧ (discard_loop accepting_device tebibyte_device 1000 8 () 0 512).ranges
        = [(0, 512), (512, 488)]
    ∧ 488 % tebibyte_device.sector_size ≠ 0
    ∧ (discard_loop accepting_device tebibyte_device 1000 8 () 0 512).commands = [(0, 1)] := by
  decide

/-- C14 as stated fails: with `maximum_unmap_lba_count = 4` a range of
`2 * 4 + 5 = 13` blocks takes four commands, of 4, 4, 4 and 1 blocks. -/
theorem sg_unmap_thirteen_blocks_counterexample :
    (sg_unmap accepting_device () { tebibyte_device with maximum_unmap_lba_count := 4 }
        512 ((2 * 4 + 5) * 512)).map (fun r => r.issued)
      = some [(1, 4), (5, 4), (9, 4), (13, 1)] := by
  decide

/-- C14, amended: for `maximum_unmap_lba_count = N` with `5 ≤ N < 2^32`, a
non-zero sector size, a transport that accepts every command, and a range of
`2 * N + 5` blocks that ends below block `2^64`, `sg_unmap` returns 0 after
issuing exactly three commands, of `N`, `N` and 5 blocks, starting at the
first block of the range, at `N` blocks after it and at `2 * N` blocks after
it. -/
theorem sg_unmap_two_full_and_five {σ : Type} (ioctl : sg_ioctl σ) (fd : σ)
    (info : device_info) (offset length : Nat)
    (hs : info.sector_size ≠ 0)
    (hN : 5 ≤ info.maximum_unmap_lba_count) (hN32 : info.maximum_unmap_lba_count < 2 ^ 32)
    (hlen : length / info.sector_size = 2 * info.maximum_unmap_lba_count + 5)
    (hsum : offset / info.sector_size + length / info.sector_size < 2 ^ 64)
    (hok : ∀ fd hdr, (ioctl fd hdr).1 = 0) :
    ∃ r, sg_unmap ioctl fd info offset length = some r
      ∧ r.ret = 0
      ∧ r.issued =
          [(offset / info.sector_size, info.maximum_unmap_lba_count),
           (offset / info.sector_size + info.maximum_unmap_lba_count,
              info.maximum_unmap_lba_count),
           (offset / info.sector_size + 2 * info.maximum_unmap_lba_count, 5)] := by
  generalize hN0 : info.maximum_unmap_lba_count = N at *
  generalize ho : offset / info.sector_size = o at *
  rw [hlen] at hsum
  have hcount : block_descriptor_count (2 * N + 5) N = 3 := by
    rw [(block_descriptor_count_eq (2 * N + 5) N (by omega) (by omega)).1]
    apply Nat.div_eq_of_lt_le <;> omega
  have hM0 : N ≠ 0 := by omega
  have h1 : 2 * N + 5 > N := by omega
  have h2 : 2 * N + 5 - N > N := by omega
  have h3 : ¬ 2 * N + 5 - N - N > N := by omega
  have e1 : (o + N) % 2 ^ 64 = o + N := Nat.mod_eq_of_lt (by omega)
  have e2 : (o + N + N) % 2 ^ 64 = o + N + N := Nat.mod_eq_of_lt (by omega)
  have hst : ∀ (s : σ) a b, (sg_unmap_scsi ioctl s a b).1 = 0 := by
    intro s a b
    simp [sg_unmap_scsi, hok]
  refine ⟨_, by simp only [sg_unmap, if_neg hs, hN0, if_neg hM0, hlen, hcount, ho]; rfl, ?_, ?_⟩
  · simp [sg_unmap_loop_succ, sg_unmap_loop, hst]
  · simp only [sg_unmap_loop_succ, sg_unmap_loop, hst, if_pos h1, if_pos h2, if_neg h3, e1, e2,
      ne_eq, not_true_eq_false, if_false]
    have : 2 * N + 5 - N - N = 5 := by omega
    simp [this]
    omega

/-- C14, amended, with `N = 7`: 19 blocks from block 1 go out as 7, 7 and 5. -/
theorem sg_unmap_two_full_and_five_witness :
    ∃ r, sg_unmap accepting_device () { tebibyte_device with maximum_unmap_lba_count := 7 }
        512 (19 * 512) = some r
      ∧ r.ret = 0
      ∧ r.issued = [(512 / 512, 7), (512 / 512 + 7, 7), (512 / 512 + 2 * 7, 5)] :=
  sg_unmap_two_full_and_five accepting_device ()
    { tebibyte_device with maximum_unmap_lba_count := 7 } 512 (19 * 512)
    (by decide) (by decide) (by decide) (by decide) (by decide) (fun _ _ => rfl)

/-- C15: let `cmds` be the split sequence of a call of `sg_unmap` (non-zero
sector size and `maximum_unmap_lba_count`).  If the command of index `k` is
the first for which the transport returns a non-zero status, `sg_unmap`
returns that status, and the commands it has issued are exactly those of
index 0 to `k`, none after it.  `sg_unmap` returns 0 exactly when the
transport returned 0 for every command of the sequence, and it has then
issued them all. -/
theorem sg_unmap_first_failure {σ : Type} (ioctl : sg_ioctl σ) (fd : σ) (info : device_info)
    (offset length : Nat)
    (hs : info.sector_size ≠ 0) (hM : info.maximum_unmap_lba_count ≠ 0) :
    ∃ r, sg_unmap ioctl fd info offset length = some r
      ∧ (∀ k,
          k < (unmap_sequence info.maximum_unmap_lba_count
            (block_descriptor_count (length / info.sector_size) info.maximum_unmap_lba_count)
            (offset / info.sector_size) (length / info.sector_size)).length →
          (∀ j, j < k → nth_status ioctl fd (unmap_sequence info.maximum_unmap_lba_count
            (block_descriptor_count (length / info.sector_size) info.maximum_unmap_lba_count)
            (offset / info.sector_size) (length / info.sector_size)) j = 0) →
          nth_status ioctl fd (unmap_sequence info.maximum_unmap_lba_count
            (block_descriptor_count (length / info.sector_size) info.maximum_unmap_lba_count)
            (offset / info.sector_size) (length / info.sector_size)) k ≠ 0 →
          r.ret = nth_status ioctl fd (unmap_sequence info.maximum_unmap_lba_count
            (block_descriptor_count (length / info.sector_size) info.maximum_unmap_lba_count)
            (offset / info.sector_size) (length / info.sector_size)) k
          ∧ r.ret ≠ 0
          ∧ r.issued = (unmap_sequence info.maximum_unmap_lba_count
            (block_descriptor_count (length / info.sector_size) info.maximum_unmap_lba_count)
            (offset / info.sector_size) (length / info.sector_size)).take (k + 1))
      ∧ (r.ret = 0 ↔
          ∀ j, j < (unmap_sequence info.maximum_unmap_lba_count
            (block_descriptor_count (length / info.sector_size) info.maximum_unmap_lba_count)
            (offset / info.sector_size) (length / info.sector_size)).length →
            nth_status ioctl fd (unmap_sequence info.maximum_unmap_lba_count
              (block_descriptor_count (length / info.sector_size) info.maximum_unmap_lba_count)
              (offset / info.sector_size) (length / info.sector_size)) j = 0)
      ∧ (r.ret = 0 → r.issued = unmap_sequence info.maximum_unmap_lba_count
            (block_descriptor_count (length / info.sector_size) info.maximum_unmap_lba_count)
            (offset / info.sector_size) (length / info.sector_size)) := by
  refine ⟨sg_unmap_loop ioctl info.maximum_unmap_lba_count
    (block_descriptor_count (length / info.sector_size) info.maximum_unmap_lba_count) fd
    (offset / info.sector_size) (length / info.sector_size),
    by simp only [sg_unmap, if_neg hs, if_neg hM], ?_, ?_, ?_⟩
  · intro k hk hbefore hfail
    obtain ⟨h1, h2⟩ := sg_unmap_loop_first_failure ioctl _ _ fd _ _ k hk hbefore hfail
    exact ⟨h1, by rw [h1]; exact hfail, h2⟩
  · exact (sg_unmap_loop_ret_zero ioctl _ _ fd _ _).1
  · exact (sg_unmap_loop_ret_zero ioctl _ _ fd _ _).2

/-- C15 on 30 blocks from block 1 with `maximum_unmap_lba_count = 7` and a
device that rejects the command starting at block 15: the split sequence has
five commands, the third is rejected, and `sg_unmap` returns its status `-1`
after issuing the first three. -/
theorem sg_unmap_first_failure_witness :
    unmap_sequence 7 (block_descriptor_count (30 * 512 / 512) 7) (512 / 512) (30 * 512 / 512)
      = [(1, 7), (8, 7), (15, 7), (22, 7), (29, 2)]
    ∧ ∃ r, sg_unmap (rejecting_device 15) ()
        { tebibyte_device with maximum_unmap_lba_count := 7 } 512 (30 * 512) = some r
      ∧ r.ret = -1 ∧ r.issued = [(1, 7), (8, 7), (15, 7)] := by
  refine ⟨by decide, ?_⟩
  obtain ⟨r, hr, hfail, -, -⟩ := sg_unmap_first_failure (rejecting_device 15) ()
    { tebibyte_device with maximum_unmap_lba_count := 7 } 512 (30 * 512) (by decide) (by decide)
  obtain ⟨h1, -, h3⟩ := hfail 2 (by decide) (by decide) (by decide)
  exact ⟨r, hr, h1, h3⟩

/-- C16: for every 64-bit `offset_lba` and every `length_lba ≤ 2^32 - 1`,
`sg_unmap_scsi` hands to the transport a 10-byte command with byte 0 `0x42`,
bytes 7..8 the big-endian 24 and zeros elsewhere, and a 24-byte parameter
list with bytes 0..1 the big-endian 22, bytes 2..3 the big-endian 16, bytes
8..15 the big-endian `offset_lba`, bytes 16..19 the big-endian `length_lba`,
and zeros in bytes 4..7 and 20..23: one block descriptor, which decodes to
`offset_lba` and `length_lba`. -/
theorem sg_unmap_scsi_hdr_layout {σ : Type} (ioctl : sg_ioctl σ) (fd : σ)
    (offset_lba length_lba : Nat)
    (ho : offset_lba < 2 ^ 64) (hl : length_lba ≤ 2 ^ 32 - 1) :
    sg_unmap_scsi ioctl fd offset_lba length_lba
        = ((ioctl fd (sg_unmap_scsi_hdr offset_lba length_lba)).1,
           (ioctl fd (sg_unmap_scsi_hdr offset_lba length_lba)).2.2)
    ∧ (sg_unmap_scsi_hdr offset_lba length_lba).cmd_len = 10
    ∧ (sg_unmap_scsi_hdr offset_lba length_lba).cmdp = [0x42, 0, 0, 0, 0, 0, 0, 0, 24, 0]
    ∧ (sg_unmap_scsi_hdr offset_lba length_lba).dxfer_len = 24
    ∧ (sg_unmap_scsi_hdr offset_lba length_lba).dxferp
        = [0, 22, 0, 16, 0, 0, 0, 0]
          ++ (List.range 8).map (big_endian_byte 8 offset_lba)
          ++ (List.range 4).map (big_endian_byte 4 length_lba)
          ++ [0, 0, 0, 0]
    ∧ u16_from_big_endian_bytes ((sg_unmap_scsi_hdr offset_lba length_lba).cmdp.drop 7) = 24
    ∧ u16_from_big_endian_bytes (sg_unmap_scsi_hdr offset_lba length_lba).dxferp = 22
    ∧ u16_from_big_endian_bytes ((sg_unmap_scsi_hdr offset_lba length_lba).dxferp.drop 2) = 16
    ∧ u64_from_big_endian_bytes ((sg_unmap_scsi_hdr offset_lba length_lba).dxferp.drop 8)
        = offset_lba
    ∧ u32_from_big_endian_bytes ((sg_unmap_scsi_hdr offset_lba length_lba).dxferp.drop 16)
        = length_lba := by
  have hcmd : (sg_unmap_scsi_hdr offset_lba length_lba).cmdp
      = [0x42, 0, 0, 0, 0, 0, 0, 0, 24, 0] := rfl
  have h64 := u64_to_big_endian_bytes_eq offset_lba
  have h32 := u32_to_big_endian_bytes_eq length_lba
  have hpar : (sg_unmap_scsi_hdr offset_lba length_lba).dxferp
      = [0, 22, 0, 16, 0, 0, 0, 0] ++ u64_to_big_endian_bytes offset_lba
        ++ u32_to_big_endian_bytes length_lba ++ [0, 0, 0, 0] := by
    simp only [sg_unmap_scsi_hdr, h64, h32]
    rfl
  have hd8 : (sg_unmap_scsi_hdr offset_lba length_lba).dxferp.drop 8
      = u64_to_big_endian_bytes offset_lba ++ (u32_to_big_endian_bytes length_lba ++ [0, 0, 0, 0]) := by
    rw [hpar]
    simp
  have hd16 : (sg_unmap_scsi_hdr offset_lba length_lba).dxferp.drop 16
      = u32_to_big_endian_bytes length_lba ++ [0, 0, 0, 0] := by
    rw [hpar, h64]
    simp
  have e64 : u64_from_big_endian_bytes
      (u64_to_big_endian_bytes offset_lba ++ (u32_to_big_endian_bytes length_lba ++ [0, 0, 0, 0]))
      = u64_from_big_endian_bytes (u64_to_big_endian_bytes offset_lba) := by
    rw [u64_from_big_endian_bytes_eq, u64_from_big_endian_bytes_eq, h64]
    rfl
  have e32 : u32_from_big_endian_bytes (u32_to_big_endian_bytes length_lba ++ [0, 0, 0, 0])
      = u32_from_big_endian_bytes (u32_to_big_endian_bytes length_lba) := by
    rw [u32_from_big_endian_bytes_eq, u32_from_big_endian_bytes_eq, h32]
    rfl
  refine ⟨rfl, rfl, hcmd, rfl, ?_, ?_, ?_, ?_, ?_, ?_⟩
  · rw [hpar, u64_to_big_endian_bytes_order, u32_to_big_endian_bytes_order]
  · rw [hcmd]
    decide
  · rw [hpar, h64, h32, u16_from_big_endian_bytes_eq]
    simp [byte_at]
  · rw [hpar, h64, h32, u16_from_big_endian_bytes_eq]
    simp [byte_at]
  · rw [hd8, e64, u64_round_trip offset_lba ho]
  · rw [hd16, e32, u32_round_trip length_lba (by omega)]

/-- C16 on `offset_lba = 0x0102030405060708` and `length_lba = 0x0a0b0c0d`. -/
theorem sg_unmap_scsi_hdr_layout_witness :
    (sg_unmap_scsi_hdr 0x0102030405060708 0x0a0b0c0d).cmdp = [0x42, 0, 0, 0, 0, 0, 0, 0, 24, 0]
    ∧ (sg_unmap_scsi_hdr 0x0102030405060708 0x0a0b0c0d).dxferp
        = [0, 22, 0, 16, 0, 0, 0, 0, 1, 2, 3, 4, 5, 6, 7, 8, 10, 11, 12, 13, 0, 0, 0, 0] :=
  have h := sg_unmap_scsi_hdr_layout accepting_device () 0x0102030405060708 0x0a0b0c0d
    (by decide) (by decide)
  ⟨h.2.2.1, h.2.2.2.2.1⟩

/-- C17: when the transport accepts both queries and returns the byte strings
`capacity` and `limits`, `sg_get_device_info` returns 0 and has set
`last_block_address` to the big-endian value of bytes 0..7 and `sector_size`
to that of bytes 8..11 of `capacity`; the transfer lengths, the unmap limits
and the granularity to the big-endian values of bytes 8..11, 12..15, 20..23,
24..27 and 28..31 of `limits`; `support_unmap` to whether
`maximum_unmap_lba_count` is not 0; and `device_size` to
`(last_block_address + 1) * sector_size` when that product fits in 64 bits. -/
theorem sg_get_device_info_fields {σ : Type} (ioctl : sg_ioctl σ) (fd fd1 fd2 : σ)
    (info : device_info) (capacity limits : List Nat)
    (h1 : ioctl fd sg_read_capacity16_hdr = (0, capacity, fd1))
    (h2 : ioctl fd1 sg_inquiry_limits_vdp_hdr = (0, limits, fd2))
    (hcb : ∀ b ∈ capacity, b < 256) (hlb : ∀ b ∈ limits, b < 256) :
    ∃ probed, sg_get_device_info ioctl fd info = (0, probed, fd2)
      ∧ probed.last_block_address = big_endian_at capacity 0 8
      ∧ probed.sector_size = big_endian_at capacity 8 4
      ∧ probed.maximum_transfer_length = big_endian_at limits 8 4
      ∧ probed.optimal_transfer_length = big_endian_at limits 12 4
      ∧ probed.maximum_unmap_lba_count = big_endian_at limits 20 4
      ∧ probed.maximum_unmap_block_descriptor_count = big_endian_at limits 24 4
      ∧ probed.optimal_unmap_granularity = big_endian_at limits 28 4
      ∧ probed.support_unmap = decide (probed.maximum_unmap_lba_count ≠ 0)
      ∧ ((probed.last_block_address + 1) * probed.sector_size < 2 ^ 64 →
          probed.device_size = (probed.last_block_address + 1) * probed.sector_size) := by
  refine ⟨_, sg_get_device_info_accepted ioctl fd fd1 fd2 info capacity limits h1 h2,
    u64_from_eq_big_endian_at capacity hcb, u32_from_eq_big_endian_at capacity hcb 8,
    u32_from_eq_big_endian_at limits hlb 8, u32_from_eq_big_endian_at limits hlb 12,
    u32_from_eq_big_endian_at limits hlb 20, u32_from_eq_big_endian_at limits hlb 24,
    u32_from_eq_big_endian_at limits hlb 28, rfl, ?_⟩
  intro hfit
  simp only at hfit ⊢
  have hlt := u64_from_big_endian_bytes_lt capacity
  generalize u64_from_big_endian_bytes capacity = lba at hfit hlt ⊢
  generalize u32_from_big_endian_bytes (capacity.drop 8) = ss at hfit ⊢
  rcases Nat.eq_zero_or_pos ss with rfl | hpos
  · simp
  · have hle : lba + 1 ≤ (lba + 1) * ss := Nat.le_mul_of_pos_right _ hpos
    have e : (lba + 1) % 2 ^ 64 = lba + 1 := Nat.mod_eq_of_lt (by omega)
    rw [e, Nat.mod_eq_of_lt hfit]

/-- C17 on a device that reports last block `2^31 - 1`, 512-byte sectors and
an unmap limit of `2^32 - 1` blocks. -/
theorem sg_get_device_info_fields_witness :
    ∃ probed, sg_get_device_info (replying_device capacity_reply_tebibyte limits_reply_example)
        () device_info_zero = (0, probed, ())
      ∧ probed.last_block_address = 2 ^ 31 - 1
      ∧ probed.sector_size = 512
      ∧ probed.maximum_transfer_length = 65535
      ∧ probed.optimal_transfer_length = 128
      ∧ probed.maximum_unmap_lba_count = 2 ^ 32 - 1
      ∧ probed.maximum_unmap_block_descriptor_count = 1
      ∧ probed.optimal_unmap_granularity = 8
      ∧ probed.support_unmap = true
      ∧ probed.device_size = 2 ^ 40 := by
  obtain ⟨probed, h, a1, a2, a3, a4, a5, a6, a7, a8, a9⟩ :=
    sg_get_device_info_fields (replying_device capacity_reply_tebibyte limits_reply_example)
      () () () device_info_zero capacity_reply_tebibyte limits_reply_example rfl rfl
      (by decide) (by decide)
  have b1 : big_endian_at capacity_reply_tebibyte 0 8 = 2 ^ 31 - 1 := by decide
  have b2 : big_endian_at capacity_reply_tebibyte 8 4 = 512 := by decide
  have b5 : big_endian_at limits_reply_example 20 4 = 2 ^ 32 - 1 := by decide
  rw [b1] at a1
  rw [b2] at a2
  rw [b5] at a5
  refine ⟨probed, h, a1, a2, by rw [a3]; decide, by rw [a4]; decide, a5, by rw [a6]; decide,
    by rw [a7]; decide, by rw [a8, a5]; decide, ?_⟩
  rw [a9 (by rw [a1, a2]; decide), a1, a2]
  decide

/-- C18 as stated fails: on a capacity reply with last block address
`2^64 - 1` and sector size 512 the probe returns 0, not an error, and leaves
`device_size = 0` in the record. -/
theorem sg_get_device_info_overflow_counterexample :
    (sg_get_device_info (replying_device capacity_reply_overflow limits_reply_example)
        () device_info_zero).1 = 0
    ∧ (sg_get_device_info (replying_device capacity_reply_overflow limits_reply_example)
        () device_info_zero).2.1.last_block_address = 2 ^ 64 - 1
    ∧ (sg_get_device_info (replying_device capacity_reply_overflow limits_reply_example)
        () device_info_zero).2.1.sector_size = 512
    ∧ (sg_get_device_info (replying_device capacity_reply_overflow limits_reply_example)
        () device_info_zero).2.1.device_size = 0
    ∧ 2 ^ 64 - 1 < (2 ^ 64 - 1 + 1) * 512 := by
  decide

/-- C18, amended: the probe has no overflow error.  The value that
`sg_get_device_info` returns is always a status of the transport (that of the
capacity query when it is not 0, else that of the block-limits query), and
when the transport accepts both queries the probe returns 0 with
`device_size = ((last_block_address + 1) mod 2^64 * sector_size) mod 2^64`,
also when `(last_block_address + 1) * sector_size` exceeds `2^64 - 1`. -/
theorem sg_get_device_info_wraps {σ : Type} (ioctl : sg_ioctl σ) (fd : σ) (info : device_info) :
    (sg_get_device_info ioctl fd info).1 =
        (if (ioctl fd sg_read_capacity16_hdr).1 ≠ 0 then (ioctl fd sg_read_capacity16_hdr).1
          else (ioctl (ioctl fd sg_read_capacity16_hdr).2.2 sg_inquiry_limits_vdp_hdr).1)
    ∧ ((ioctl fd sg_read_capacity16_hdr).1 = 0 →
        (ioctl (ioctl fd sg_read_capacity16_hdr).2.2 sg_inquiry_limits_vdp_hdr).1 = 0 →
        (sg_get_device_info ioctl fd info).1 = 0
        ∧ (sg_get_device_info ioctl fd info).2.1.last_block_address
            = u64_from_big_endian_bytes (ioctl fd sg_read_capacity16_hdr).2.1
        ∧ (sg_get_device_info ioctl fd info).2.1.sector_size
            = u32_from_big_endian_bytes ((ioctl fd sg_read_capacity16_hdr).2.1.drop 8)
        ∧ (sg_get_device_info ioctl fd info).2.1.device_size
            = (((sg_get_device_info ioctl fd info).2.1.last_block_address + 1) % 2 ^ 64
                * (sg_get_device_info ioctl fd info).2.1.sector_size) % 2 ^ 64) := by
  constructor
  · unfold sg_get_device_info sg_read_capacity16 sg_inquiry_limits_vdp
    simp only []
    split
    · rfl
    · rename_i h
      simp only [h, if_false]
      split <;> rfl
  · intro h1 h2
    have e1 : ioctl fd sg_read_capacity16_hdr
        = (0, (ioctl fd sg_read_capacity16_hdr).2.1, (ioctl fd sg_read_capacity16_hdr).2.2) := by
      rw [← h1]
    have e2 : ioctl (ioctl fd sg_read_capacity16_hdr).2.2 sg_inquiry_limits_vdp_hdr
        = (0, (ioctl (ioctl fd sg_read_capacity16_hdr).2.2 sg_inquiry_limits_vdp_hdr).2.1,
            (ioctl (ioctl fd sg_read_capacity16_hdr).2.2 sg_inquiry_limits_vdp_hdr).2.2) := by
      rw [← h2]
    rw [sg_get_device_info_accepted ioctl fd _ _ info _ _ e1 e2]
    exact ⟨rfl, rfl, rfl, rfl⟩

/-- C18, amended, on the reply with last block address `2^64 - 1`: the probe
returns 0 and `device_size` is 0. -/
theorem sg_get_device_info_wraps_witness :
    (sg_get_device_info (replying_device capacity_reply_overflow limits_reply_example)
        () device_info_zero).1 = 0
    ∧ (sg_get_device_info (replying_device capacity_reply_overflow limits_reply_example)
        () device_info_zero).2.1.device_size
        = (((sg_get_device_info (replying_device capacity_reply_overflow limits_reply_example)
              () device_info_zero).2.1.last_block_address + 1) % 2 ^ 64
            * (sg_get_device_info (replying_device capacity_reply_overflow limits_reply_example)
              () device_info_zero).2.1.sector_size) % 2 ^ 64 :=
  have h := (sg_get_device_info_wraps
    (replying_device capacity_reply_overflow limits_reply_example) () device_info_zero).2 rfl rfl
  ⟨h.1, h.2.2.2⟩

/-- C19: decoding what the encoder of the same width produced gives the value
back, for every 16-bit, 32-bit and 64-bit value, and the encoders write the
bytes from the most significant to the least significant. -/
theorem big_endian_round_trip :
    (∀ v, v < 2 ^ 16 →
      u16_from_big_endian_bytes (u16_to_big_endian_bytes v) = v
      ∧ u16_to_big_endian_bytes v = (List.range 2).map (big_endian_byte 2 v))
    ∧ (∀ v, v < 2 ^ 32 →
      u32_from_big_endian_bytes (u32_to_big_endian_bytes v) = v
      ∧ u32_to_big_endian_bytes v = (List.range 4).map (big_endian_byte 4 v))
    ∧ (∀ v, v < 2 ^ 64 →
      u64_from_big_endian_bytes (u64_to_big_endian_bytes v) = v
      ∧ u64_to_big_endian_bytes v = (List.range 8).map (big_endian_byte 8 v)) :=
  ⟨fun v hv => ⟨u16_round_trip v hv, u16_to_big_endian_bytes_order v⟩,
   fun v hv => ⟨u32_round_trip v hv, u32_to_big_endian_bytes_order v⟩,
   fun v hv => ⟨u64_round_trip v hv, u64_to_big_endian_bytes_order v⟩⟩

/-- C19 on the values `0x0102`, `0x01020304` and `0x0102030405060708`. -/
theorem big_endian_round_trip_witness :
    (u16_from_big_endian_bytes (u16_to_big_endian_bytes 0x0102) = 0x0102
      ∧ u16_to_big_endian_bytes 0x0102 = [1, 2])
    ∧ (u32_from_big_endian_bytes (u32_to_big_endian_bytes 0x01020304) = 0x01020304
      ∧ u32_to_big_endian_bytes 0x01020304 = [1, 2, 3, 4])
    ∧ (u64_from_big_endian_bytes (u64_to_big_endian_bytes 0x0102030405060708)
        = 0x0102030405060708
      ∧ u64_to_big_endian_bytes 0x0102030405060708 = [1, 2, 3, 4, 5, 6, 7, 8]) :=
  ⟨big_endian_round_trip.1 0x0102 (by decide),
   big_endian_round_trip.2.1 0x01020304 (by decide),
   big_endian_round_trip.2.2 0x0102030405060708 (by decide)⟩

/-- C20, at a failing input: on a device of `2^64 - 512` bytes with 512-byte
sectors that accepts every command, the request offset 0, no length, step
`2^63` passes every check of `main` with `end_offset = 2^64 - 512`, and the
loop has not ended after any number of rounds: from offset 0 it goes to
`2^63`, and from there `offset + length` wraps to 0, which restarts it. -/
theorem discard_loop_runs_forever (fuel : Nat) :
    plan huge_device 0 (2 ^ 64 - 1) (2 ^ 63) = .accepted 0 (2 ^ 64 - 512) (2 ^ 63)
    ∧ (discard_loop accepting_device huge_device (2 ^ 64 - 512) fuel () 0 (2 ^ 63)).status
        = .still_running
    ∧ (discard_loop accepting_device huge_device (2 ^ 64 - 512) fuel () 0 (2 ^ 63)).ranges.length
        = fuel := by
  refine ⟨by rfl, ?_⟩
  have hok : ∀ (fd : Unit) (hdr : sg_io_hdr), (accepting_device fd hdr).1 = 0 := fun _ _ => rfl
  have hun : ∀ o, o = 0 ∨ o = 2 ^ 63 →
      ∃ r, sg_unmap accepting_device () huge_device o (2 ^ 63) = some r ∧ r.ret = 0 := by
    intro o ho
    apply sg_unmap_accepting accepting_device () huge_device o (2 ^ 63) (by decide) (by decide)
      _ hok
    rcases ho with rfl | rfl <;> decide
  have key : ∀ n o, o = 0 ∨ o = 2 ^ 63 →
      (discard_loop accepting_device huge_device (2 ^ 64 - 512) n () o (2 ^ 63)).status
        = .still_running
      ∧ (discard_loop accepting_device huge_device (2 ^ 64 - 512) n () o (2 ^ 63)).ranges.length
        = n := by
    intro n
    induction n with
    | zero =>
      intro o ho
      rcases ho with rfl | rfl <;> simp [discard_loop]
    | succ n ih =>
      intro o ho
      obtain ⟨r, hr, hret⟩ := hun o ho
      have hlt : o < 2 ^ 64 - 512 := by
        rcases ho with rfl | rfl <;> decide
      have hcut : ¬ (o + 2 ^ 63) % 2 ^ 64 > 2 ^ 64 - 512 := by
        rcases ho with rfl | rfl <;> decide
      have hnext : (o + 2 ^ 63) % 2 ^ 64 = 0 ∨ (o + 2 ^ 63) % 2 ^ 64 = 2 ^ 63 := by
        rcases ho with rfl | rfl
        · right; decide
        · left; decide
      obtain ⟨i1, i2⟩ := ih _ hnext
      have hfd : r.fd = () := rfl
      simp only [discard_loop, if_pos hlt, if_neg hcut, hr, hret, ne_eq, not_true_eq_false,
        if_false, hfd]
      exact ⟨i1, by rw [List.length_cons, i2]⟩
  exact key fuel 0 (Or.inl rfl)

/-- C21, at the failing input `"15.9E"`, read in the C locale: `parse_size`
returns 0 and stores 0, although `"15E"` is parsed to `15 * 1024^6`, so the
result is below `n * b^k` for `n = 15`, `b = 1024`, `k = 6`.  The digit 9 adds
`1024^6 / (10 / 9)`, a whole unit, and `15 * 1024^6 + 1024^6` is `2^64`: the
`x +=` of the fractional step wraps, while `do_scale_by_power` refuses the
same value when it is reached by scaling 16. -/
theorem parse_size_fraction_wraps :
    parse_size c_locale "15.9E".toList = .returned 0 0
    ∧ parse_size c_locale "15E".toList = .returned 0 (15 * 1024 ^ 6)
    ∧ ¬ 15 * 1024 ^ 6 ≤ 0
    ∧ 15 * 1024 ^ 6 + 1024 ^ 6 / (10 / 9) = 2 ^ 64
    ∧ (do_scale_by_power 16 1024 6).1 = -ERANGE := by
  decide

/-- C22, at a failing input: a device whose capacity reply is all zeros (as
the buffer is when no medium answers) and whose block-limits reply allows
unmapping.  The probe returns 0 with `support_unmap` true and
`maximum_unmap_lba_count = 2^32 - 1`, so `main` goes past the unmap-support
check, but `sector_size` is 0: the alignment check `offset % sector_size`
divides by zero, and so would `sg_unmap`. -/
theorem probe_zero_sector_size :
    (sg_get_device_info (replying_device capacity_reply_zeros limits_reply_example)
        () device_info_zero).1 = 0
    ∧ (sg_get_device_info (replying_device capacity_reply_zeros limits_reply_example)
        () device_info_zero).2.1.support_unmap = true
    ∧ (sg_get_device_info (replying_device capacity_reply_zeros limits_reply_example)
        () device_info_zero).2.1.maximum_unmap_lba_count = 2 ^ 32 - 1
    ∧ (sg_get_device_info (replying_device capacity_reply_zeros limits_reply_example)
        () device_info_zero).2.1.sector_size = 0
    ∧ plan (sg_get_device_info (replying_device capacity_reply_zeros limits_reply_example)
        () device_info_zero).2.1 0 (2 ^ 64 - 1) 0 = .divide_by_zero
    ∧ (main_after_probe accepting_device
        (sg_get_device_info (replying_device capacity_reply_zeros limits_reply_example)
          () device_info_zero).2.1 8 () 0 (2 ^ 64 - 1) 0).checks = .divide_by_zero
    ∧ (sg_unmap accepting_device ()
        (sg_get_device_info (replying_device capacity_reply_zeros limits_reply_example)
          () device_info_zero).2.1 0 512).isNone = true := by
  decide

end Sgblkdiscard
